import Mathlib

/-!
Verification of the melkit PTF decoder (`src/melkit/ptf.py`).

Shallow embedding of the PTF binary decoder.  A file is a list of bytes
(`Bytes`); Python exceptions become `Except PyErr`; Python locals that may be
unbound (`probemTitle`, `VarName`, ...) become `Option` fields that start as
`none`; 32-bit floats are carried as their raw little-endian 32-bit words (the
code never computes with them, it only moves them), with `f32ToRat` giving the
IEEE-754 value of a word where a claim speaks about numeric values.

The two near-identical scan passes of the source (`PTF._inspect_ptf` and the
first phase of `PTF.MCRBin`) differ only in lines 176-184 vs 287-295 (which
list the variable-position lookups iterate over), so they are embedded as one
loop `scanLoop` parameterised by `ScanMode`; `.inspect` iterates over
`available_vars` (lines 287-288), `.extract vars` iterates over
`vars_to_search` (lines 176-177).

Text decoding: the source decodes byte fields with `str(b, 'utf-8')`.  All
byte strings appearing in this development are ASCII; the embedding decodes
ASCII bytes and treats any byte >= 128 as a decode error (Python would accept
multi-byte UTF-8 sequences as well; no claim depends on that case, since all
scan decisions compare decoded strings against ASCII tags).
-/

abbrev Bytes := List Nat

/-- `file.read(n)` of Python from position `pos`: returns up to `n` bytes,
fewer (or none) at end of file. -/
def pyRead (file : Bytes) (pos n : Nat) : Bytes :=
  (file.drop pos).take n

/-- Little-endian unsigned integer value of a byte string
(`struct.unpack('I', ...)` for 4 bytes). -/
def le32 (bs : Bytes) : Nat :=
  bs.foldr (fun b acc => b + 256 * acc) 0

/-- Python exceptions raised by the decoder. -/
inductive PyErr where
  /-- `struct.error`: `unpack` was handed a byte string of the wrong size
  (this is what a truncated record produces). -/
  | structError
  /-- `UnicodeDecodeError` from `str(bytes, 'utf-8')`. -/
  | unicodeDecode
  /-- `UnboundLocalError` / `NameError`: a local such as `available_vars`,
  `probemTitle`, `VarName`, `VarPos`, `VarSrchPos` is referenced before any
  assignment to it. -/
  | unboundLocal
  /-- `ZeroDivisionError` at `BlkLenBef[-1]/VarName[0]`. -/
  | zeroDivision
  /-- `IndexError` from list indexing (e.g. the `HdrList[cntr - k]` lookbacks
  on a too-short history). -/
  | indexError
  /-- `ValueError` from `available_vars.index(var.strip())` when a requested
  variable is absent. -/
  | valueError
  /-- `KeyError` raised by `PTF.to_dataframe`, carrying the missing names. -/
  | keyError (missing : List String)
  /-- fuel exhaustion of the embedded loop (never happens for the fuel used;
  kept so the loop is total). -/
  | outOfFuel
deriving DecidableEq, Repr

/-- `str(bs, 'utf-8')` restricted to ASCII input (see module comment). -/
def decodeBytes (bs : Bytes) : Except PyErr String :=
  if bs.all (· < 128) then .ok (String.mk (bs.map Char.ofNat)) else .error .unicodeDecode

/-- Python's default `str.strip()` whitespace test (ASCII part). -/
def isPySpace (c : Char) : Bool :=
  c == ' ' || c == '\t' || c == '\n' || c == '\r' || c == '\x0b' || c == '\x0c'

/-- Python `s.strip()`. -/
def pyStrip (s : String) : String :=
  String.mk (((s.toList.dropWhile isPySpace).reverse.dropWhile isPySpace).reverse)

/-- Normalise a Python slice bound: negative indices count from the end,
out-of-range bounds clamp. -/
def pyBound (len : Nat) (i : Int) : Nat :=
  (if i < 0 then max (i + len) 0 else min i len).toNat

/-- Python `l[a:b]` for a list of ints. -/
def pySlice (l : List Nat) (a b : Int) : List Nat :=
  (l.take (pyBound l.length b)).drop (pyBound l.length a)

/-- Python `d[k] = v` on a dict represented as an insertion-ordered
association list: an existing key keeps its position and gets the new value,
a fresh key is appended. -/
def pyDictSet (d : List (String × List Nat)) (k : String) (v : List Nat) :
    List (String × List Nat) :=
  if d.any (fun p => p.1 = k) then d.map (fun p => if p.1 = k then (k, v) else p)
  else d ++ [(k, v)]

/-- Python `l.index(x)`: first index of `x`, `ValueError` when absent. -/
def pyIndexOf (l : List String) (x : String) : Except PyErr Nat :=
  match l with
  | [] => .error .valueError
  | y :: ys => if y = x then .ok 0 else (pyIndexOf ys x).map (· + 1)

/-- Python `l[i]` for a nonnegative index: `IndexError` when out of range. -/
def pyNth {α : Type} (l : List α) (i : Nat) : Except PyErr α :=
  match l, i with
  | [], _ => .error .indexError
  | x :: _, 0 => .ok x
  | _ :: xs, n + 1 => pyNth xs n

/-- Python `l[i]` with an `Int` index (negative indices count from the end),
as used by the `HdrList[cntr - k]` lookbacks. -/
def pyGetI {α : Type} (l : List α) (i : Int) : Except PyErr α :=
  let j : Int := if i < 0 then i + l.length else i
  if h : 0 ≤ j ∧ j < l.length then
    .ok (l.get ⟨j.toNat, by omega⟩)
  else .error .indexError

/-- Stable insertion (by the second component, the key) used to model
Python's stable `sorted`: an element is placed before the first strictly
later element whose key it does not exceed, hence after earlier equal keys. -/
def insKey (x : Nat × Nat) : List (Nat × Nat) → List (Nat × Nat)
  | [] => [x]
  | y :: ys => if x.2 ≤ y.2 then x :: y :: ys else y :: insKey x ys

/-- Stable insertion sort on (index, key) pairs. -/
def isortKey : List (Nat × Nat) → List (Nat × Nat)
  | [] => []
  | x :: xs => insKey x (isortKey xs)

/-- Python `sorted(range(len(xs)), key=lambda k: xs[k])`. -/
def pyArgsort (xs : List Nat) : List Nat :=
  (isortKey xs.enum).map (·.1)

def insNat (x : Nat) : List Nat → List Nat
  | [] => [x]
  | y :: ys => if x ≤ y then x :: y :: ys else y :: insNat x ys

/-- Python `l.sort()` on a list of naturals. -/
def pySortNat : List Nat → List Nat
  | [] => []
  | x :: xs => insNat x (pySortNat xs)

/-- Split `bs` into `count` fields of `w` bytes each
(`struct.unpack('<w>s' * count, bs)` field extraction). -/
def splitInto (count w : Nat) (bs : Bytes) : List Bytes :=
  (List.range count).map (fun i => (bs.drop (i * w)).take w)

/-- The `count` unsigned 32-bit integers of `bs`
(`struct.unpack('<count>I', bs)` field extraction). -/
def chunk4 (count : Nat) (bs : Bytes) : List Nat :=
  (List.range count).map (fun i => le32 ((bs.drop (4 * i)).take 4))

def tagTITL : String := "TITL"
def tagKEY : String := "KEY "
def tagTR : String := ".TR/"

/-- The warning printed at ptf.py lines 261-263 (sum of item spans differs
from the number of item ids) — the code prints and continues. -/
def itemsWarning : String :=
  "Sum of items to be associated with each variable is different from the sum of all items id VarNum"

/-- The warning printed at ptf.py lines 254-258 (dead code: the span list is
built with one entry per variable name, so the lengths always agree). -/
def lenWarning : String :=
  "Number of variables different from number of items of offset array"

/-- The data handed from the KEY-group block to the mode-specific part of the
loop body (ptf.py lines 176-184 / 287-295): the freshly built
`available_vars`, the pre-reindex `VarUdmFull`, and `VarName[1]`. -/
structure Key5Out where
  avs : List String
  udmFull0 : List String
  nTot : Nat
deriving DecidableEq, Repr

/-- The three locals whose final value depends on which list the
position-lookup loop iterates over. -/
structure VarsFields where
  VarUdmFull : Option (List String)
  VarSrchPos : Option (List Nat)
  SwapPosVarSrch : Option (List Nat)
deriving DecidableEq, Repr

/-- Everything else the loop accumulates (identical in both passes).
`trailerAt` is a ghost field recording the byte position of each record
length trailer read at ptf.py line 303/192; nothing in the embedded code
reads it. -/
structure Shared where
  pos : Nat
  cntr : Nat
  HdrList : List (Option String)
  BlkLenBef : List Nat
  BlkLenAft : List Nat
  DataPos : List Nat
  trailerAt : List Nat
  probemTitle : Option String
  VarName : Option (Nat × Nat)
  VarNam : Option (List String)
  VarPos : Option (List Nat)
  VarUdm : Option (List String)
  VarNum : Option (List Nat)
  available_vars : Option (List String)
  warnings : List String
deriving DecidableEq, Repr

structure ScanState where
  sh : Shared
  vf : VarsFields
deriving DecidableEq, Repr

inductive ScanMode where
  | inspect
  | extract (vars : List String)

/-- Which names the position-lookup loop runs over: `_inspect_ptf` iterates
over `available_vars` itself (line 287), `MCRBin` over `vars_to_search`
(line 176). -/
def modeSrc (m : ScanMode) (avs : List String) : List String :=
  match m with
  | .inspect => avs
  | .extract vs => vs

/-- `for var in src: VarSrchPos.append(available_vars.index(var.strip()))`. -/
def computeSearch (avs : List String) (src : List String) : Except PyErr (List Nat) :=
  src.mapM (fun v => pyIndexOf avs (pyStrip v))

/-- ptf.py lines 176-184 / 287-295: look up the positions, reindex
`VarUdmFull` by the unsorted position list, build the double-argsort
permutation, then sort the positions and append the sentinel
`VarName[1] + 4`. -/
def varsTail (m : ScanMode) (k : Key5Out) : Except PyErr VarsFields := do
  let ps ← computeSearch k.avs (modeSrc m k.avs)
  let vsp0 := 0 :: ps
  let udm ← vsp0.mapM (pyNth k.udmFull0)
  .ok { VarUdmFull := some udm,
        VarSrchPos := some (pySortNat vsp0 ++ [k.nTot + 4]),
        SwapPosVarSrch := some (pyArgsort (pyArgsort vsp0)) }

/-- ptf.py lines 264-270: build `Var_dict`, slicing `VarNum` into one chunk
per base name (Python dict and slice semantics). -/
def buildVarDict (varNam : List String) (itm : List Int) (varNum : List Nat) :
    List (String × List Nat) :=
  (varNam.enum.foldl
    (fun (st : List (String × List Nat) × Int) p =>
      let numOfItems := itm.getD p.1 0
      (pyDictSet st.1 p.2 (pySlice varNum st.2 (st.2 + numOfItems)),
       st.2 + numOfItems))
    ([], 0)).1

/-- ptf.py lines 271-277: one display name per item id; id 0 gives the bare
trimmed base name, id `v > 0` gives `basename_v`. -/
def derivedNames (dict : List (String × List Nat)) : List String :=
  (dict.map (fun p =>
    p.2.map (fun e => if e = 0 then pyStrip p.1 else pyStrip p.1 ++ "_" ++ toString e))).flatten

/-- ptf.py lines 278-280: repeat each trimmed unit `itm_x_Var[i]` times.
`VarUdm` is only dereferenced when some span is positive, matching Python's
lazy unbound-local error. -/
def buildUdmPart (varUdm? : Option (List String)) (itm : List Int) :
    Except PyErr (List String) := do
  let parts ← itm.enum.mapM (fun p =>
    if p.2 ≤ 0 then .ok ([] : List String)
    else
      match varUdm? with
      | none => .error .unboundLocal
      | some udm => do
          let u ← pyNth udm p.1
          .ok (List.replicate p.2.toNat (pyStrip u)))
  .ok parts.flatten

/-- Result of one loop iteration beyond the shared state. -/
inductive StepTail where
  /-- no KEY-group completion this iteration -/
  | noKey
  /-- the KEY-group block ran to completion -/
  | key5 (k : Key5Out)
  /-- the (dead) `break` of ptf.py lines 254-259 fired -/
  | brk5
deriving DecidableEq, Repr

/-- ptf.py lines 219-220: a 4-byte record is a tag; decode its payload. -/
def tagStep (file : Bytes) (s : Shared) : Except PyErr (Shared × StepTail) :=
  let tb := pyRead file s.pos 4
  if tb.length ≠ 4 then .error .structError else
  match decodeBytes tb with
  | .error e => .error e
  | .ok t => .ok ({ s with HdrList := s.HdrList ++ [some t], pos := s.pos + 4 }, .noKey)

/-- ptf.py lines 221-225: the record after `TITL` is the problem title. -/
def titlStep (file : Bytes) (s : Shared) (L : Nat) : Except PyErr (Shared × StepTail) :=
  let bs := pyRead file s.pos L
  if bs.length ≠ L then .error .structError else
  match decodeBytes bs with
  | .error e => .error e
  | .ok t =>
      .ok ({ s with
              probemTitle := some t, HdrList := s.HdrList ++ [none],
              pos := s.pos + L }, .noKey)

/-- ptf.py lines 226-228: `VarName = unpack('2I', ptf.read(8))` — 8 bytes are
read regardless of the record's declared length. -/
def key1Step (file : Bytes) (s : Shared) : Except PyErr (Shared × StepTail) :=
  let bs := pyRead file s.pos 8
  if bs.length ≠ 8 then .error .structError else
  .ok ({ s with
          VarName := some (le32 (bs.take 4), le32 ((bs.drop 4).take 4)),
          HdrList := s.HdrList ++ [none], pos := s.pos + 8 }, .noKey)

/-- ptf.py lines 229-234: base variable names, each of width
`BlkLenBef[-1]/VarName[0]` (ZeroDivisionError when `VarName[0] = 0`). -/
def key2Step (file : Bytes) (s : Shared) (L : Nat) : Except PyErr (Shared × StepTail) :=
  match s.VarName with
  | none => .error .unboundLocal
  | some nm =>
    if nm.1 = 0 then .error .zeroDivision else
    let w := L / nm.1
    let bs := pyRead file s.pos L
    if bs.length ≠ w * nm.1 then .error .structError else
    match (splitInto nm.1 w bs).mapM decodeBytes with
    | .error e => .error e
    | .ok names =>
        .ok ({ s with
                VarNam := some names, HdrList := s.HdrList ++ [none],
                pos := s.pos + bs.length }, .noKey)

/-- ptf.py lines 235-238: `VarPos = unpack('%dI' % VarName[0], read(L))`. -/
def key3Step (file : Bytes) (s : Shared) (L : Nat) : Except PyErr (Shared × StepTail) :=
  match s.VarName with
  | none => .error .unboundLocal
  | some nm =>
    let bs := pyRead file s.pos L
    if bs.length ≠ 4 * nm.1 then .error .structError else
    .ok ({ s with
            VarPos := some (chunk4 nm.1 bs),
            HdrList := s.HdrList ++ [none],
            pos := s.pos + bs.length }, .noKey)

/-- ptf.py lines 239-242: `VarUdm = unpack('16s' * VarName[0], read(L))`. -/
def key4Step (file : Bytes) (s : Shared) (L : Nat) : Except PyErr (Shared × StepTail) :=
  match s.VarName with
  | none => .error .unboundLocal
  | some nm =>
    let bs := pyRead file s.pos L
    if bs.length ≠ 16 * nm.1 then .error .structError else
    match (splitInto nm.1 16 bs).mapM decodeBytes with
    | .error e => .error e
    | .ok udm =>
        .ok ({ s with
                VarUdm := some udm, HdrList := s.HdrList ++ [none],
                pos := s.pos + bs.length }, .noKey)

/-- ptf.py lines 251-253: the item spans `VarPos[k+1] - VarPos[k]`. -/
def mkItm (varPosExt : List Nat) (n : Nat) : Except PyErr (List Int) :=
  (List.range n).mapM (fun k =>
    match pyNth varPosExt (k + 1), pyNth varPosExt k with
    | .ok a, .ok b => .ok ((a : Int) - (b : Int))
    | .error e, _ => .error e
    | _, .error e => .error e)

/-- ptf.py lines 243-296: `VarNum = unpack('%dI' % VarName[1], read(L))`,
then the catalog build. -/
def key5Step (file : Bytes) (s : Shared) (L : Nat) : Except PyErr (Shared × StepTail) :=
  match s.VarName with
  | none => .error .unboundLocal
  | some nm =>
    let bs := pyRead file s.pos L
    if bs.length ≠ 4 * nm.2 then .error .structError else
    let varNum := chunk4 nm.2 bs
    let s := { s with VarNum := some varNum, pos := s.pos + bs.length }
    -- line 249: VarPos = VarPos + (VarName[1]+1,) — unbound when no VarPos yet
    match s.VarPos with
    | none => .error .unboundLocal
    | some varPos0 =>
    match s.VarNam with
    | none => .error .unboundLocal
    | some varNam =>
      let varPosExt := varPos0 ++ [nm.2 + 1]
      let s := { s with VarPos := some varPosExt }
      match mkItm varPosExt varNam.length with
      | .error e => .error e
      | .ok itm =>
        if itm.length ≠ varNam.length then
          -- lines 254-259 (dead code): print and break; at this point
          -- available_vars = [] and VarSrchPos = [0]
          .ok ({ s with
                  available_vars := some [],
                  warnings := s.warnings ++ [lenWarning] }, .brk5)
        else
          -- lines 260-263: warning only, the scan continues
          let warns := if itm.sum ≠ (varNum.length : Int)
            then s.warnings ++ [itemsWarning] else s.warnings
          let dict := buildVarDict varNam itm varNum
          let derived := derivedNames dict
          match buildUdmPart s.VarUdm itm with
          | .error e => .error e
          | .ok udmPart =>
            -- lines 281-283: the four fixed entries come first
            let avs := ["TIME", "CPU", "DT", "UNKN03"] ++ derived
            let udmFull0 := ["sec", "", "", ""] ++ udmPart
            .ok ({ s with
                    available_vars := some avs, warnings := warns,
                    HdrList := s.HdrList ++ [none] },
                 .key5 ⟨avs, udmFull0, nm.2⟩)

/-- ptf.py lines 297-300: the record after `.TR/` is a data block: remember
its offset and skip its payload. -/
def trStep (s : Shared) (L : Nat) : Except PyErr (Shared × StepTail) :=
  .ok ({ s with
          DataPos := s.DataPos ++ [s.pos], pos := s.pos + L,
          HdrList := s.HdrList ++ [none] }, .noKey)

/-- ptf.py lines 301-302: any other record is skipped structurally.  The
payload is *not* consumed: the next 4 bytes read are the trailer. -/
def otherStep (s : Shared) : Except PyErr (Shared × StepTail) :=
  .ok ({ s with HdrList := s.HdrList ++ [none] }, .noKey)

/-- The `elif` chain of ptf.py lines 219-302, with the lookbacks
`HdrList[cntr - k]` evaluated lazily in source order. -/
def dispatch (file : Bytes) (s : Shared) (L : Nat) : Except PyErr (Shared × StepTail) :=
  if L = 4 then tagStep file s
  else
    match pyGetI s.HdrList ((s.cntr : Int) - 1) with
    | .error e => .error e
    | .ok h1 =>
      if h1 = some tagTITL then titlStep file s L
      else if h1 = some tagKEY then key1Step file s
      else
        match pyGetI s.HdrList ((s.cntr : Int) - 2) with
        | .error e => .error e
        | .ok h2 =>
          if h2 = some tagKEY then key2Step file s L
          else
            match pyGetI s.HdrList ((s.cntr : Int) - 3) with
            | .error e => .error e
            | .ok h3 =>
              if h3 = some tagKEY then key3Step file s L
              else
                match pyGetI s.HdrList ((s.cntr : Int) - 4) with
                | .error e => .error e
                | .ok h4 =>
                  if h4 = some tagKEY then key4Step file s L
                  else
                    match pyGetI s.HdrList ((s.cntr : Int) - 5) with
                    | .error e => .error e
                    | .ok h5 =>
                      if h5 = some tagKEY then key5Step file s L
                      else if h1 = some tagTR then trStep s L
                      else otherStep s

/-- One iteration of the scan loop (ptf.py lines 215-302), without the
mode-specific lines and the trailer read: read the 4-byte length prefix,
then classify the record. -/
def stepCore (file : Bytes) (s0 : Shared) : Except PyErr (Shared × StepTail) :=
  let chunk := pyRead file s0.pos 4
  if chunk.length ≠ 4 then .error .structError else
  let L := le32 chunk
  dispatch file { s0 with BlkLenBef := s0.BlkLenBef ++ [L], pos := s0.pos + 4 } L

/-- The trailer read of ptf.py line 303/192, finishing one iteration.  The
trailer's value is stored in `BlkLenAft` and never used; `trailerAt` is the
ghost record of its position. -/
def finTrailer (file : Bytes) (sh1 : Shared) (vf : VarsFields) :
    Except PyErr (ScanState × Bool) :=
  let tb := pyRead file sh1.pos 4
  if tb.length ≠ 4 then .error .structError else
  .ok (⟨{ sh1 with
           BlkLenAft := sh1.BlkLenAft ++ [le32 tb],
           trailerAt := sh1.trailerAt ++ [sh1.pos],
           pos := sh1.pos + 4, cntr := sh1.cntr + 1 }, vf⟩, false)

/-- One full iteration: the core, the mode-specific lines, and the trailer
read.  The second component is `true` when the (dead) `break` fired. -/
def stepBody (m : ScanMode) (file : Bytes) (st : ScanState) :
    Except PyErr (ScanState × Bool) :=
  match stepCore file st.sh with
  | .error e => .error e
  | .ok (sh1, .brk5) =>
      .ok (⟨sh1, { VarUdmFull := some [], VarSrchPos := some [0],
                   SwapPosVarSrch := st.vf.SwapPosVarSrch }⟩, true)
  | .ok (sh1, .noKey) => finTrailer file sh1 st.vf
  | .ok (sh1, .key5 k) =>
      match varsTail m k with
      | .error e => .error e
      | .ok vf => finTrailer file sh1 vf

/-- The `while True` loop of both passes: stop cleanly on a zero-length read
at a record boundary, otherwise take one step. -/
def scanLoop (m : ScanMode) (file : Bytes) : Nat → ScanState → Except PyErr ScanState
  | 0, _ => .error .outOfFuel
  | fuel + 1, s =>
    if (pyRead file s.sh.pos 4).length = 0 then .ok s
    else
      match stepBody m file s with
      | .error e => .error e
      | .ok (s', brk) => if brk then .ok s' else scanLoop m file fuel s'

def initVF : VarsFields := ⟨none, none, none⟩

def initShared : Shared :=
  ⟨0, 0, [], [], [], [], [], none, none, none, none, none, none, none, []⟩

def initState : ScanState := ⟨initShared, initVF⟩

/-- Enough fuel: every iteration consumes at least the 4 length bytes. -/
def fuelFor (file : Bytes) : Nat := file.length + 1

/-- The scan of `PTF._inspect_ptf`, returning its final state. -/
def inspectRun (file : Bytes) : Except PyErr ScanState :=
  scanLoop .inspect file (fuelFor file) initState

/-- `PTF._inspect_ptf`: `return available_vars, probemTitle`, which raises
`UnboundLocalError` when the scan never built them. -/
def inspectPTF (file : Bytes) : Except PyErr (List String × String) :=
  match inspectRun file with
  | .error e => .error e
  | .ok s =>
    match s.sh.available_vars, s.sh.probemTitle with
    | some avs, some t => .ok (avs, t)
    | _, _ => .error .unboundLocal

/-- One 4-byte read of the data pass (`unpack('f', ptf.read(4))`), kept as
the raw 32-bit word.  A short read is `struct.error`; a seek to a negative
offset cannot happen (positions telescope to `Pos + 4*VarSrchPos[j]`). -/
def readF32 (file : Bytes) (p : Int) : Except PyErr Nat :=
  if p < 0 then .error .structError
  else
    let bs := pyRead file p.toNat 4
    if bs.length = 4 then .ok (le32 bs) else .error .structError

/-- ptf.py lines 200-202: starting at a data block, read one float per
position and seek forward `(VarSrchPos[j+1]-VarSrchPos[j])*4-4` in between;
the final sentinel entry only positions the (unused) end. -/
def readRowAux (file : Bytes) : Int → List Nat → Except PyErr (List Nat)
  | _, [] => .ok []
  | _, [_] => .ok []
  | p, a :: b :: rest =>
      match readF32 file p with
      | .error e => .error e
      | .ok v =>
        match readRowAux file (p + ((b : Int) - (a : Int)) * 4) (b :: rest) with
        | .error e => .error e
        | .ok vs => .ok (v :: vs)

/-- numpy fancy indexing `row[idx]` of one row. -/
def npFancy (row : List Nat) (idx : List Nat) : List Nat :=
  idx.map (fun k => row.getD k 0)

/-- The full result of `PTF.MCRBin`, keeping the final scan state. -/
structure MCROut where
  final : ScanState
  time : List Nat
  values : List (List Nat)
  units : List String
  avs : List String
  title : String
deriving DecidableEq, Repr

/-- `PTF.MCRBin(vars_to_search)`: scan pass (extract mode), then the data
pass over `DataPos` (lines 196-204), then the double-argsort column
permutation and the split into time axis / value columns / units. -/
def MCRBinFull (file : Bytes) (vars : List String) : Except PyErr MCROut :=
  match scanLoop (.extract vars) file (fuelFor file) initState with
  | .error e => .error e
  | .ok s =>
    match s.vf.VarSrchPos, s.vf.SwapPosVarSrch, s.vf.VarUdmFull,
          s.sh.available_vars, s.sh.probemTitle with
    | some vsp, some swp, some udm, some avs, some title =>
        match s.sh.DataPos.mapM (fun (pos : Nat) => readRowAux file (pos : Int) vsp) with
        | .error e => .error e
        | .ok data =>
            let data2 := data.map (fun row => npFancy row swp)
            .ok { final := s,
                  time := data2.map (fun r => r.getD 0 0),
                  values := data2.map (fun r => r.drop 1),
                  units := udm.drop 1,
                  avs := avs,
                  title := title }
    | _, _, _, _, _ => .error .unboundLocal

/-- The tuple `PTF.MCRBin` returns (line 204). -/
def MCRBin (file : Bytes) (vars : List String) :
    Except PyErr (List Nat × List (List Nat) × List String × List String × String) :=
  (MCRBinFull file vars).map (fun r => (r.time, r.values, r.units, r.avs, r.title))

/-- `PTF.to_dataframe` (lines 41-57): precheck that the requested names are a
subset of the catalog; otherwise `KeyError` with all missing names, before
any data is read. -/
def toDataframe (file : Bytes) (variables' : List String) :
    Except PyErr (List Nat × List (List Nat)) :=
  match inspectPTF file with
  | .error e => .error e
  | .ok r =>
    let missing := (variables'.filter (fun v => ¬ r.1.contains v)).dedup
    if missing.isEmpty then
      match MCRBinFull file variables' with
      | .error e => .error e
      | .ok m => .ok (m.time, m.values)
    else .error (.keyError missing)

/-- IEEE-754 binary32 value of a 32-bit word (`none` for infinities/NaN). -/
def f32ToRat (w : Nat) : Option Rat :=
  let s : Nat := w / 2 ^ 31 % 2
  let e : Nat := w / 2 ^ 23 % 256
  let m : Nat := w % 2 ^ 23
  if e = 255 then none
  else
    let mag : Rat :=
      if e = 0 then (m : Rat) / 2 ^ 23 * (1 / 2 ^ 126)
      else
        let sig : Nat := 2 ^ 23 + m
        (sig : Rat) / 2 ^ 23 *
          (if 127 ≤ e then ((2 ^ (e - 127) : Nat) : Rat)
           else 1 / ((2 ^ (127 - e) : Nat) : Rat))
    some (if s = 1 then -mag else mag)

/-! ## Concrete test files -/

/-- little-endian 4-byte encoding of `n` -/
def u32 (n : Nat) : Bytes := [n % 256, n / 256 % 256, n / 65536 % 256, n / 16777216 % 256]

def strB (s : String) : Bytes := s.toList.map Char.toNat

/-- A record with matching length trailer. -/
def mkRec (payload : Bytes) : Bytes := u32 payload.length ++ payload ++ u32 payload.length

/-- A record with an arbitrary 4-byte trailer. -/
def mkRecT (payload trailer : Bytes) : Bytes := u32 payload.length ++ payload ++ trailer

/-- Right-pad an ASCII string with spaces to width `n` (fixed-width fields). -/
def padTo (s : String) (n : Nat) : String :=
  s ++ String.mk (List.replicate (n - s.length) ' ')

/-- A well-formed file: title, one KEY group with two base variables
`FOO`/`BAR` (one scalar item each), and two data blocks of six samples. -/
def wfFile : Bytes :=
  mkRec (strB tagTITL) ++ mkRec (strB "TEST RUN") ++
  mkRec (strB tagKEY) ++ mkRec (u32 2 ++ u32 2) ++
  mkRec (strB (padTo "FOO" 8) ++ strB (padTo "BAR" 8)) ++
  mkRec (u32 1 ++ u32 2) ++
  mkRec (strB (padTo "K" 16) ++ strB (padTo "J" 16)) ++
  mkRec (u32 0 ++ u32 0) ++
  mkRec (strB tagTR) ++
  mkRec (u32 100 ++ u32 101 ++ u32 102 ++ u32 103 ++ u32 104 ++ u32 105) ++
  mkRec (strB tagTR) ++
  mkRec (u32 200 ++ u32 201 ++ u32 202 ++ u32 203 ++ u32 204 ++ u32 205)

/-- A file whose KEY group declares `total_item_count = 3` but whose position
table `(2, 3)` gives item spans `(1, 1)` summing to 2: the count-mismatch
case of ptf.py lines 260-263. -/
def mismatchFile : Bytes :=
  mkRec (strB tagTITL) ++ mkRec (strB "TEST RUN") ++
  mkRec (strB tagKEY) ++ mkRec (u32 2 ++ u32 3) ++
  mkRec (strB (padTo "FOO" 8) ++ strB (padTo "BAR" 8)) ++
  mkRec (u32 2 ++ u32 3) ++
  mkRec (strB (padTo "K" 16) ++ strB (padTo "J" 16)) ++
  mkRec (u32 1 ++ u32 2 ++ u32 3)

/-- A file with two complete KEY groups (`FOO`/`BAR`, then `BAZ`/`QUX`). -/
def twoKeyFile : Bytes :=
  mkRec (strB tagTITL) ++ mkRec (strB "TEST RUN") ++
  mkRec (strB tagKEY) ++ mkRec (u32 2 ++ u32 2) ++
  mkRec (strB (padTo "FOO" 8) ++ strB (padTo "BAR" 8)) ++
  mkRec (u32 1 ++ u32 2) ++
  mkRec (strB (padTo "K" 16) ++ strB (padTo "J" 16)) ++
  mkRec (u32 0 ++ u32 0) ++
  mkRec (strB tagKEY) ++ mkRec (u32 2 ++ u32 2) ++
  mkRec (strB (padTo "BAZ" 8) ++ strB (padTo "QUX" 8)) ++
  mkRec (u32 1 ++ u32 2) ++
  mkRec (strB (padTo "W" 16) ++ strB (padTo "V" 16)) ++
  mkRec (u32 0 ++ u32 0)

/-- The synthetic round-trip file of the spec, canonically encoded: one KEY
group with `group_count = 1`, `total_item_count = 3`, base name `FOO`, item
numbers 1..3, unit `K`, and two data blocks of seven samples
(TIME, CPU, DT, UNKN03, FOO_1..FOO_3).  Its position record holds one
unsigned integer, so its length prefix is 4 — which the scanner reads as a
tag (ptf.py line 219), leaving `VarPos` unbound. -/
def singleGroupFile : Bytes :=
  mkRec (strB tagTITL) ++ mkRec (strB "TEST RUN") ++
  mkRec (strB tagKEY) ++ mkRec (u32 1 ++ u32 3) ++
  mkRec (strB (padTo "FOO" 8)) ++
  mkRec (u32 1) ++
  mkRec (strB (padTo "K" 16)) ++
  mkRec (u32 1 ++ u32 2 ++ u32 3) ++
  mkRec (strB tagTR) ++
  mkRec (u32 10 ++ u32 11 ++ u32 12 ++ u32 13 ++
         u32 1073741824 ++ u32 15 ++ u32 16) ++
  mkRec (strB tagTR) ++
  mkRec (u32 20 ++ u32 21 ++ u32 22 ++ u32 23 ++
         u32 1084227584 ++ u32 25 ++ u32 26)

/-- The head shared by the two trailer-variant files: catalog as `wfFile`,
then one data block record whose payload holds only two samples. -/
def trailHead : Bytes :=
  mkRec (strB tagTITL) ++ mkRec (strB "TEST RUN") ++
  mkRec (strB tagKEY) ++ mkRec (u32 2 ++ u32 2) ++
  mkRec (strB (padTo "FOO" 8) ++ strB (padTo "BAR" 8)) ++
  mkRec (u32 1 ++ u32 2) ++
  mkRec (strB (padTo "K" 16) ++ strB (padTo "J" 16)) ++
  mkRec (u32 0 ++ u32 0) ++
  mkRec (strB tagTR)

/-- Data-block record with honest length trailer 8. -/
def trailFileA : Bytes := trailHead ++ mkRecT (u32 300 ++ u32 301) (u32 8)

/-- Same bytes, but the data block's length trailer holds `0x40A00000`
(the bits of 5.0f). -/
def trailFileB : Bytes := trailHead ++ mkRecT (u32 300 ++ u32 301) (u32 1084227584)

/-! ## Proof-layer definitions -/

/-- The shape facts every successful record-classification branch provides:
the break is dead, the trailer ghost, `BlkLenAft` and `cntr` are untouched,
the position does not move backwards, any new data-block offset is before
the new position, and `available_vars` changes only when a KEY group
completes — to a catalog starting with the four fixed names (with unit list
starting with `sec`). -/
structure BranchFacts (s sh' : Shared) (tl : StepTail) : Prop where
  no_brk : tl ≠ .brk5
  trailer : sh'.trailerAt = s.trailerAt
  aft : sh'.BlkLenAft = s.BlkLenAft
  cnt : sh'.cntr = s.cntr
  posle : s.pos ≤ sh'.pos
  dataPos : ∀ p ∈ sh'.DataPos, p ∈ s.DataPos ∨ p ≤ sh'.pos
  avs_noKey : tl = .noKey → sh'.available_vars = s.available_vars
  avs_key5 : ∀ k, tl = .key5 k → sh'.available_vars = some k.avs ∧
        (∃ rest, k.avs = "TIME" :: "CPU" :: "DT" :: "UNKN03" :: rest) ∧
        (∃ rest2, k.udmFull0 = "sec" :: rest2)

/-- The empty-request invariant tying the catalog to the mode fields: either
no KEY group has completed yet, or the fields have the one-lookup shape. -/
def EmptyVfInv (sh : Shared) (vf : VarsFields) : Prop :=
  (sh.available_vars = none ∧ vf = initVF) ∨
  ∃ n : Nat, vf = ⟨some ["sec"], some [0, n + 4], some [0]⟩

/-- Recursive view of the `Var_dict` build over (name, span) pairs. -/
def zipBuildAux (varNum : List Nat) : List (String × Int) →
    List (String × List Nat) × Int → List (String × List Nat)
  | [], (d, _) => d
  | (nm, span) :: rest, (d, c) =>
      zipBuildAux varNum rest (pyDictSet d nm (pySlice varNum c (c + span)), c + span)

/-- `sh` with its (never used) trailer-value list replaced. -/
def withAft (sh : Shared) (A : List Nat) : Shared := { sh with BlkLenAft := A }

/-- Byte-agreement outside the 4-byte windows listed in `T`. -/
def AgreeOutside (file1 file2 : Bytes) (T : List Nat) : Prop :=
  file2.length = file1.length ∧
  ∀ i, i < file1.length → (∀ t ∈ T, ¬(t ≤ i ∧ i < t + 4)) →
    file2.getD i 0 = file1.getD i 0

/-! ## Lemmas: `Except` plumbing and `mapM` -/

theorem exBind_ok {α β : Type} (a : α) (f : α → Except PyErr β) :
    (Except.ok a >>= f) = f a := rfl

theorem exBind_error {α β : Type} (e : PyErr) (f : α → Except PyErr β) :
    ((Except.error e : Except PyErr α) >>= f) = .error e := rfl

theorem exPure_def {α : Type} (a : α) : (pure a : Except PyErr α) = .ok a := rfl

/-- Inversion of a successful `mapM` over `Except`: the input and output
lists are pointwise related by success of `f`. -/
theorem mapM_ok_forall2 {α β : Type} (f : α → Except PyErr β) :
    ∀ (l : List α) (r : List β), l.mapM f = .ok r →
      List.Forall₂ (fun x y => f x = .ok y) l r := by
  intro l
  induction l with
  | nil =>
      intro r h
      rw [List.mapM_nil, exPure_def] at h
      cases h
      exact List.Forall₂.nil
  | cons a t ih =>
      intro r h
      rw [List.mapM_cons] at h
      cases hfa : f a with
      | error e => rw [hfa, exBind_error] at h; cases h
      | ok b =>
          rw [hfa, exBind_ok] at h
          cases hmt : t.mapM f with
          | error e => rw [hmt, exBind_error] at h; cases h
          | ok bs =>
              rw [hmt, exBind_ok, exPure_def] at h
              cases h
              exact List.Forall₂.cons hfa (ih bs hmt)

theorem mapM_ok_length {α β : Type} {f : α → Except PyErr β} {l : List α}
    {r : List β} (h : l.mapM f = .ok r) : r.length = l.length :=
  (List.Forall₂.length_eq (mapM_ok_forall2 f l r h)).symm

/-- The converse direction: pointwise success assembles into `mapM` success. -/
theorem forall2_mapM_ok {α β : Type} (f : α → Except PyErr β) :
    ∀ (l : List α) (r : List β), List.Forall₂ (fun x y => f x = .ok y) l r →
      l.mapM f = .ok r := by
  intro l
  induction l with
  | nil => intro r h; cases h; rfl
  | cons a t ih =>
      intro r h
      cases h with
      | cons hab htl =>
        rw [List.mapM_cons, hab, exBind_ok, ih _ htl, exBind_ok, exPure_def]

/-! ## Lemmas: the stable sorts -/

theorem insNat_zero (l : List Nat) : insNat 0 l = 0 :: l := by
  cases l with
  | nil => rfl
  | cons y ys => simp [insNat]

theorem insNat_length (x : Nat) (l : List Nat) : (insNat x l).length = l.length + 1 := by
  induction l with
  | nil => rfl
  | cons y ys ih => by_cases h : x ≤ y <;> simp [insNat, h, ih]

theorem pySortNat_length (l : List Nat) : (pySortNat l).length = l.length := by
  induction l with
  | nil => rfl
  | cons x xs ih => simp [pySortNat, insNat_length, ih]

theorem pySortNat_zero_cons (l : List Nat) :
    pySortNat (0 :: l) = 0 :: pySortNat l := by
  simp [pySortNat, insNat_zero]

theorem insKey_key_zero (x : Nat × Nat) (hx : x.2 = 0) (l : List (Nat × Nat)) :
    insKey x l = x :: l := by
  cases l with
  | nil => rfl
  | cons y ys => simp [insKey, hx]

theorem insKey_length (x : Nat × Nat) (l : List (Nat × Nat)) :
    (insKey x l).length = l.length + 1 := by
  induction l with
  | nil => rfl
  | cons y ys ih => by_cases h : x.2 ≤ y.2 <;> simp [insKey, h, ih]

theorem isortKey_length (l : List (Nat × Nat)) : (isortKey l).length = l.length := by
  induction l with
  | nil => rfl
  | cons x xs ih => simp [isortKey, insKey_length, ih]

theorem pyArgsort_length (l : List Nat) : (pyArgsort l).length = l.length := by
  simp [pyArgsort, isortKey_length, List.enum_length]

theorem pyArgsort_zero_cons (l : List Nat) :
    ∃ t, pyArgsort (0 :: l) = 0 :: t ∧ t.length = l.length := by
  refine ⟨(isortKey (List.enumFrom 1 l)).map (·.1), ?_, ?_⟩
  · simp only [pyArgsort, List.enum_cons]
    rw [show isortKey ((0, 0) :: List.enumFrom 1 l) =
          insKey (0, 0) (isortKey (List.enumFrom 1 l)) from rfl]
    rw [insKey_key_zero (0, 0) rfl]
    rfl
  · simp [isortKey_length, List.enumFrom_length]

/-! ## Lemmas: the data pass -/

/-- The running-seek reads of ptf.py lines 200-202 telescope: starting from
`p` on position list `a :: l`, the j-th read is at `p + 4 * (l[j] - a)`. -/
theorem readRowAux_eq (file : Bytes) :
    ∀ (l : List Nat) (p : Int) (a : Nat),
      readRowAux file p (a :: l) =
        (a :: l).dropLast.mapM (fun (v : Nat) => readF32 file (p + ((v : Int) - (a : Int)) * 4)) := by
  intro l
  induction l with
  | nil => intro p a; simp [readRowAux, List.dropLast]; rfl
  | cons b rest ih =>
      intro p a
      rw [show readRowAux file p (a :: b :: rest) =
        (match readF32 file p with
        | .error e => .error e
        | .ok v =>
          match readRowAux file (p + ((b : Int) - (a : Int)) * 4) (b :: rest) with
          | .error e => .error e
          | .ok vs => .ok (v :: vs) : Except PyErr (List Nat)) from rfl]
      rw [ih]
      rw [show ((a :: b :: rest).dropLast : List Nat) = a :: (b :: rest).dropLast from rfl]
      rw [List.mapM_cons]
      rw [show p + ((a : Int) - (a : Int)) * 4 = p by ring]
      have harith : ∀ v' : Nat,
          p + ((b : Int) - (a : Int)) * 4 + (((v' : Int)) - (b : Int)) * 4 =
          p + (((v' : Int)) - (a : Int)) * 4 := by intro v'; ring
      have heq : ((b :: rest).dropLast.mapM fun (v' : Nat) =>
          readF32 file (p + ((b : Int) - (a : Int)) * 4 + (((v' : Int)) - (b : Int)) * 4)) =
          ((b :: rest).dropLast.mapM fun (v' : Nat) =>
          readF32 file (p + (((v' : Int)) - (a : Int)) * 4)) := by
        congr 1
        funext v'
        rw [harith]
      cases hv : readF32 file p with
      | error e => rfl
      | ok v =>
          rw [heq]
          cases hm : (b :: rest).dropLast.mapM fun (v' : Nat) =>
              readF32 file (p + (((v' : Int)) - (a : Int)) * 4) with
          | error e => rfl
          | ok vs => rfl

/-! ## Lemmas: reads under byte agreement -/

/-- Two same-length files that agree on the bytes of a read window produce
the same read. -/
theorem pyRead_agree (file1 file2 : Bytes) (hlen : file2.length = file1.length)
    (p n : Nat)
    (hag : ∀ i, p ≤ i → i < p + n → i < file1.length → file2.getD i 0 = file1.getD i 0) :
    pyRead file2 p n = pyRead file1 p n := by
  apply List.ext_getElem
  · simp [pyRead, hlen]
  · intro j h1 h2
    have hl1 : (pyRead file2 p n).length = min n (file2.length - p) := by
      simp [pyRead]
    have hj2 : j < n ∧ p + j < file2.length := by
      rw [hl1] at h1; omega
    have hj1 : p + j < file1.length := by omega
    have hj2b : p + j < file2.length := hj2.2
    have e2 : (pyRead file2 p n)[j] = file2[p + j] := by
      simp only [pyRead]
      rw [List.getElem_take, List.getElem_drop]
    have e1 : (pyRead file1 p n)[j] = file1[p + j] := by
      simp only [pyRead]
      rw [List.getElem_take, List.getElem_drop]
    rw [e1, e2]
    have hb := hag (p + j) (by omega) (by omega) hj1
    have g2 : file2.getD (p + j) 0 = file2[p + j] :=
      List.getD_eq_getElem file2 0 hj2b
    have g1 : file1.getD (p + j) 0 = file1[p + j] :=
      List.getD_eq_getElem file1 0 hj1
    rw [g1, g2] at hb
    exact hb

/-! ## Claim C1 -/

set_option maxRecDepth 100000 in
/-- **C1** (code bug): on `mismatchFile` the sum of the item spans (2)
differs from the declared total item count (3), yet `_inspect_ptf` merely
records the printed warning of ptf.py lines 261-263 and returns a catalog:
nothing fatal happens, contradicting the spec's `ItemCountMismatch`. -/
theorem C1_mismatch_is_warning_not_fatal :
    (inspectRun mismatchFile).map (fun s => (s.sh.warnings, s.sh.VarName)) =
      .ok ([itemsWarning], some (2, 3)) ∧
    inspectPTF mismatchFile =
      .ok (["TIME", "CPU", "DT", "UNKN03", "FOO_1", "BAR_2"], "TEST RUN") := by
  exact ⟨rfl, rfl⟩

/-! ## Claim C2 -/

set_option maxRecDepth 100000 in
/-- **C2** (code bug): `twoKeyFile` holds two KEY groups; the scan succeeds
with no error and its catalog is the one rebuilt from the *second* group
(`BAZ`, `QUX`), silently discarding the first group's (`FOO`, `BAR`),
contradicting the spec's fatal `MultipleKeyGroups`. -/
theorem C2_second_key_group_overwrites :
    inspectPTF twoKeyFile =
      .ok (["TIME", "CPU", "DT", "UNKN03", "BAZ", "QUX"], "TEST RUN") ∧
    (["TIME", "CPU", "DT", "UNKN03", "BAZ", "QUX"] : List String) ≠
      ["TIME", "CPU", "DT", "UNKN03", "FOO", "BAR"] := by
  exact ⟨rfl, by decide⟩

/-! ## Claim C3 -/

/-- **C3 counterexample**: opening the empty file does fail, but not with the
truncated-record error (`struct.error`): the zero-length read at position 0
is the clean end-of-stream branch (ptf.py lines 216-217), and the failure is
the `UnboundLocalError` at `return available_vars, probemTitle`. -/
theorem C3_empty_file_error_is_not_truncation :
    inspectPTF [] = .error .unboundLocal ∧
    PyErr.unboundLocal ≠ PyErr.structError := by
  exact ⟨rfl, by decide⟩

/-- **C3 amended**: an empty file fails with the unbound-local error (no
catalog was ever built) rather than returning an empty catalog; a short read
anywhere other than a clean zero-length read at a record boundary is fatal
with `struct.error` — e.g. any nonempty file shorter than one length field,
and a file whose tag payload is cut short. -/
theorem C3_empty_fails_and_short_reads_fatal :
    inspectPTF [] = .error .unboundLocal ∧
    (∀ bs : Bytes, bs ≠ [] → bs.length < 4 → inspectPTF bs = .error .structError) ∧
    inspectPTF [4, 0, 0, 0, 84] = .error .structError := by
  refine ⟨rfl, ?_, rfl⟩
  intro bs hne hlt
  match bs, hne with
  | [a], _ => rfl
  | [a, b], _ => rfl
  | [a, b, c], _ => rfl
  | a :: b :: c :: d :: t, _ => exact absurd hlt (by simp [List.length_cons])

/-- Witness for the universal part of the amended C3. -/
theorem C3_witness :
    ([7] : Bytes) ≠ [] ∧ inspectPTF [7] = .error .structError :=
  ⟨by decide, C3_empty_fails_and_short_reads_fatal.2.1 [7] (by decide) (by decide)⟩

/-! ## Claim C5 -/

set_option maxRecDepth 100000 in
/-- **C5 counterexample**: the spec's synthetic single-group file cannot even
be opened, let alone produce the claimed name list and values: with
`group_count = 1` the position record's length prefix is 4, so the scanner
consumes it as a tag and `VarPos` stays unbound. -/
theorem C5_roundtrip_file_does_not_open :
    (inspectPTF singleGroupFile).isOk = false ∧
    (MCRBinFull singleGroupFile ["FOO_2"]).isOk = false := by
  exact ⟨rfl, rfl⟩

set_option maxRecDepth 100000 in
/-- **C5 amended**: opening (and extracting from) the canonical encoding of
the synthetic single-group file fails with Python's unbound-local error:
the 4-byte position record is parsed as a tag, so the KEY-group completion
at ptf.py line 249 dereferences the never-assigned `VarPos`. -/
theorem C5_roundtrip_file_unbound_varpos :
    inspectPTF singleGroupFile = .error .unboundLocal ∧
    MCRBinFull singleGroupFile ["FOO_2"] = .error .unboundLocal := by
  exact ⟨rfl, rfl⟩

/-! ## Claim C4 (counterexample) -/

set_option maxRecDepth 100000 in
/-- **C4 counterexample**: `mismatchFile` opens successfully and its KEY
group declares `total_item_count = 3` (`VarName = (2, 3)`), yet the variable
list has 6 entries, not `4 + 3`: the count mismatch was only warned about,
and the catalog keeps the 2 items the spans cover. -/
theorem C4_opened_file_with_wrong_length :
    inspectPTF mismatchFile =
      .ok (["TIME", "CPU", "DT", "UNKN03", "FOO_1", "BAR_2"], "TEST RUN") ∧
    (inspectRun mismatchFile).map (fun s => s.sh.VarName) = .ok (some (2, 3)) ∧
    (["TIME", "CPU", "DT", "UNKN03", "FOO_1", "BAR_2"] : List String).length ≠ 4 + 3 := by
  exact ⟨rfl, rfl, by decide⟩

/-! ## Claim C9 (counterexample) -/

set_option maxRecDepth 1000000 in
/-- **C9 counterexample**: `trailFileA`/`trailFileB` have equal length and
agree on every byte below 176; position 176 starts the length trailer of the
data-block record (it is in the scan's trailer-position list), so they are
identical except for one stored trailer value.  The data block holds only
two samples while the catalog has six entries, so extracting `DT`
(catalog index 2) reads the four trailer bytes as a sample: the two files
yield different extracted data, refuting trailer-insensitivity of
extraction. -/
theorem C9_trailer_bytes_can_change_data :
    trailFileB.length = trailFileA.length ∧
    trailFileA.length = 180 ∧
    (∀ i, i < 176 → trailFileA.getD i 0 = trailFileB.getD i 0) ∧
    (inspectRun trailFileA).map (fun s => s.sh.trailerAt) =
      .ok [8, 24, 36, 52, 76, 92, 132, 148, 160, 176] ∧
    (MCRBinFull trailFileA ["DT"]).map (fun r => r.values) = .ok [[8]] ∧
    (MCRBinFull trailFileB ["DT"]).map (fun r => r.values) = .ok [[1084227584]] ∧
    f32ToRat 8 ≠ f32ToRat 1084227584 := by
  exact ⟨by decide, by decide, by decide, rfl, rfl, rfl, by norm_num [f32ToRat]⟩

/-! ## Claim C6 -/

/-- **C6**: whenever some requested names are absent from the catalog of a
successfully opened file, `to_dataframe` fails with a `KeyError` carrying
exactly the set of missing names (every requested-and-absent name and
nothing else), without reaching the data-reading pass. -/
theorem C6_lookup_error_names_all_missing :
    ∀ (file : Bytes) (vs cols : List String) (t : String),
      inspectPTF file = .ok (cols, t) →
      vs.filter (fun v => ¬ cols.contains v) ≠ [] →
      toDataframe file vs =
        .error (.keyError ((vs.filter (fun v => ¬ cols.contains v)).dedup)) ∧
      ∀ v, v ∈ (vs.filter (fun v => ¬ cols.contains v)).dedup ↔ (v ∈ vs ∧ v ∉ cols) := by
  intro file vs cols t hok hne
  refine ⟨?_, ?_⟩
  · have hde : ((vs.filter (fun v => ¬ cols.contains v)).dedup).isEmpty = false := by
      cases h : (vs.filter (fun v => ¬ cols.contains v)).dedup.isEmpty
      · rfl
      · exact absurd ((List.dedup_eq_nil _).mp (List.isEmpty_iff.mp h)) hne
    simp only [toDataframe, hok]
    rw [hde]
    rfl
  · intro v
    simp [List.mem_dedup, List.mem_filter, List.elem_iff]

set_option maxRecDepth 400000 in
/-- Witness for C6 at `wfFile`: one absent name is reported alone, two
absent names are reported together. -/
theorem C6_witness :
    toDataframe wfFile ["NOPE"] = .error (.keyError ["NOPE"]) ∧
    toDataframe wfFile ["NOPE", "FOO", "ALSO"] = .error (.keyError ["NOPE", "ALSO"]) := by
  constructor
  · exact (C6_lookup_error_names_all_missing wfFile ["NOPE"]
      ["TIME", "CPU", "DT", "UNKN03", "FOO", "BAR"] "TEST RUN" rfl (by decide)).1
  · exact (C6_lookup_error_names_all_missing wfFile ["NOPE", "FOO", "ALSO"]
      ["TIME", "CPU", "DT", "UNKN03", "FOO", "BAR"] "TEST RUN" rfl (by decide)).1

theorem tagStep_facts {file : Bytes} {s sh' : Shared} {tl : StepTail}
    (h : tagStep file s = .ok (sh', tl)) : BranchFacts s sh' tl := by
  simp only [tagStep] at h
  split at h
  · cases h
  · split at h
    · cases h
    · simp only [Except.ok.injEq, Prod.mk.injEq] at h
      obtain ⟨h1, h2⟩ := h
      subst h1; subst h2
      exact ⟨nofun, rfl, rfl, rfl, by simp, fun p hp => Or.inl hp, fun _ => rfl, fun k hk => by cases hk⟩

theorem titlStep_facts {file : Bytes} {s sh' : Shared} {tl : StepTail} {L : Nat}
    (h : titlStep file s L = .ok (sh', tl)) : BranchFacts s sh' tl := by
  simp only [titlStep] at h
  split at h
  · cases h
  · split at h
    · cases h
    · simp only [Except.ok.injEq, Prod.mk.injEq] at h
      obtain ⟨h1, h2⟩ := h
      subst h1; subst h2
      exact ⟨nofun, rfl, rfl, rfl, by simp, fun p hp => Or.inl hp, fun _ => rfl, fun k hk => by cases hk⟩

theorem key1Step_facts {file : Bytes} {s sh' : Shared} {tl : StepTail}
    (h : key1Step file s = .ok (sh', tl)) : BranchFacts s sh' tl := by
  simp only [key1Step] at h
  split at h
  · cases h
  · simp only [Except.ok.injEq, Prod.mk.injEq] at h
    obtain ⟨h1, h2⟩ := h
    subst h1; subst h2
    exact ⟨nofun, rfl, rfl, rfl, by simp, fun p hp => Or.inl hp, fun _ => rfl, fun k hk => by cases hk⟩

theorem key2Step_facts {file : Bytes} {s sh' : Shared} {tl : StepTail} {L : Nat}
    (h : key2Step file s L = .ok (sh', tl)) : BranchFacts s sh' tl := by
  simp only [key2Step] at h
  split at h
  · cases h
  · split at h
    · cases h
    · split at h
      · cases h
      · split at h
        · cases h
        · simp only [Except.ok.injEq, Prod.mk.injEq] at h
          obtain ⟨h1, h2⟩ := h
          subst h1; subst h2
          exact ⟨nofun, rfl, rfl, rfl, by simp, fun p hp => Or.inl hp, fun _ => rfl, fun k hk => by cases hk⟩

theorem key3Step_facts {file : Bytes} {s sh' : Shared} {tl : StepTail} {L : Nat}
    (h : key3Step file s L = .ok (sh', tl)) : BranchFacts s sh' tl := by
  simp only [key3Step] at h
  split at h
  · cases h
  · split at h
    · cases h
    · simp only [Except.ok.injEq, Prod.mk.injEq] at h
      obtain ⟨h1, h2⟩ := h
      subst h1; subst h2
      exact ⟨nofun, rfl, rfl, rfl, by simp, fun p hp => Or.inl hp, fun _ => rfl, fun k hk => by cases hk⟩

theorem key4Step_facts {file : Bytes} {s sh' : Shared} {tl : StepTail} {L : Nat}
    (h : key4Step file s L = .ok (sh', tl)) : BranchFacts s sh' tl := by
  simp only [key4Step] at h
  split at h
  · cases h
  · split at h
    · cases h
    · split at h
      · cases h
      · simp only [Except.ok.injEq, Prod.mk.injEq] at h
        obtain ⟨h1, h2⟩ := h
        subst h1; subst h2
        exact ⟨nofun, rfl, rfl, rfl, by simp, fun p hp => Or.inl hp, fun _ => rfl, fun k hk => by cases hk⟩

theorem trStep_facts {s sh' : Shared} {tl : StepTail} {L : Nat}
    (h : trStep s L = .ok (sh', tl)) : BranchFacts s sh' tl := by
  simp only [trStep, Except.ok.injEq, Prod.mk.injEq] at h
  obtain ⟨h1, h2⟩ := h
  subst h1; subst h2
  refine ⟨nofun, rfl, rfl, rfl, by simp, ?_, fun _ => rfl, fun k hk => by cases hk⟩
  intro p hp
  simp only [List.mem_append, List.mem_singleton] at hp
  rcases hp with hp | hp
  · exact Or.inl hp
  · right; subst hp; simp

theorem otherStep_facts {s sh' : Shared} {tl : StepTail}
    (h : otherStep s = .ok (sh', tl)) : BranchFacts s sh' tl := by
  simp only [otherStep, Except.ok.injEq, Prod.mk.injEq] at h
  obtain ⟨h1, h2⟩ := h
  subst h1; subst h2
  exact ⟨nofun, rfl, rfl, rfl, by simp, fun p hp => Or.inl hp, fun _ => rfl, fun k hk => by cases hk⟩

theorem mkItm_ok_length {vp : List Nat} {n : Nat} {itm : List Int}
    (h : mkItm vp n = .ok itm) : itm.length = n := by
  unfold mkItm at h
  exact (mapM_ok_length h).trans (List.length_range n)

theorem key5Step_facts {file : Bytes} {s sh' : Shared} {tl : StepTail} {L : Nat}
    (h : key5Step file s L = .ok (sh', tl)) : BranchFacts s sh' tl := by
  simp only [key5Step] at h
  split at h
  · cases h
  · split at h
    · cases h
    · split at h
      · cases h
      · split at h
        · cases h
        · split at h
          · cases h
          · rename_i itm hitm
            split at h
            · -- the dead break of lines 254-259: |itm| = |varNam| by construction
              exfalso
              rename_i hlen
              exact hlen (mkItm_ok_length hitm)
            · split at h
              · cases h
              · simp only [Except.ok.injEq, Prod.mk.injEq] at h
                obtain ⟨h1, h2⟩ := h
                subst h1; subst h2
                refine ⟨nofun, rfl, rfl, rfl, by simp, fun p hp => Or.inl hp, nofun, ?_⟩
                intro k hk
                cases hk
                exact ⟨rfl, ⟨_, rfl⟩, ⟨_, rfl⟩⟩

theorem dispatch_facts {file : Bytes} {s sh' : Shared} {tl : StepTail} {L : Nat}
    (h : dispatch file s L = .ok (sh', tl)) : BranchFacts s sh' tl := by
  unfold dispatch at h
  split at h
  · exact tagStep_facts h
  · split at h
    · cases h
    · split at h
      · exact titlStep_facts h
      · split at h
        · exact key1Step_facts h
        · split at h
          · cases h
          · split at h
            · exact key2Step_facts h
            · split at h
              · cases h
              · split at h
                · exact key3Step_facts h
                · split at h
                  · cases h
                  · split at h
                    · exact key4Step_facts h
                    · split at h
                      · cases h
                      · split at h
                        · exact key5Step_facts h
                        · split at h
                          · exact trStep_facts h
                          · exact otherStep_facts h

theorem stepCore_facts {file : Bytes} {s0 sh' : Shared} {tl : StepTail}
    (h : stepCore file s0 = .ok (sh', tl)) :
    BranchFacts s0 sh' tl ∧ s0.pos + 4 ≤ sh'.pos := by
  simp only [stepCore] at h
  split at h
  · cases h
  · have hb := dispatch_facts h
    refine ⟨⟨hb.no_brk, hb.trailer, hb.aft, hb.cnt, ?_, hb.dataPos, hb.avs_noKey, hb.avs_key5⟩, ?_⟩
    · have := hb.posle
      simp at this
      omega
    · have := hb.posle
      simp at this
      omega

/-- Inversion of one successful loop iteration: the break never fires, the
core succeeded, the trailer read got its 4 bytes, and the mode-specific
fields were either kept (no KEY completion) or set by `varsTail`. -/
theorem stepBody_inv {m : ScanMode} {file : Bytes} {st st' : ScanState} {brk : Bool}
    (h : stepBody m file st = .ok (st', brk)) :
    brk = false ∧ ∃ sh' tl,
      stepCore file st.sh = .ok (sh', tl) ∧
      (pyRead file sh'.pos 4).length = 4 ∧
      st'.sh = { sh' with
        BlkLenAft := sh'.BlkLenAft ++ [le32 (pyRead file sh'.pos 4)],
        trailerAt := sh'.trailerAt ++ [sh'.pos],
        pos := sh'.pos + 4, cntr := sh'.cntr + 1 } ∧
      ((tl = .noKey ∧ st'.vf = st.vf) ∨ (∃ k, tl = .key5 k ∧ varsTail m k = .ok st'.vf)) := by
  unfold stepBody at h
  split at h
  · cases h
  · rename_i sh1 hcore
    exact absurd rfl (stepCore_facts hcore).1.no_brk
  · rename_i sh1 hcore
    simp only [finTrailer] at h
    split at h
    · cases h
    · rename_i hlen
      simp only [Except.ok.injEq, Prod.mk.injEq] at h
      obtain ⟨h1, h2⟩ := h
      subst h2
      refine ⟨rfl, sh1, .noKey, hcore, by omega, ?_, Or.inl ⟨rfl, by rw [← h1]⟩⟩
      rw [← h1]
  · rename_i sh1 k hcore
    split at h
    · cases h
    · rename_i vf hvf
      simp only [finTrailer] at h
      split at h
      · cases h
      · rename_i hlen
        simp only [Except.ok.injEq, Prod.mk.injEq] at h
        obtain ⟨h1, h2⟩ := h
        subst h2
        refine ⟨rfl, sh1, .key5 k, hcore, by omega, ?_, Or.inr ⟨k, rfl, by rw [← h1]; exact hvf⟩⟩
        rw [← h1]

/-- Accumulated facts about a successful scan: positions move forward, new
trailer positions lie between the starting position and the end of file,
data-block offsets always have four readable bytes after them, the catalog
(once built) always starts with the four fixed names, and trailer windows
lie before the current position. -/
theorem scanLoop_facts (m : ScanMode) (file : Bytes) :
    ∀ (fuel : Nat) (s r : ScanState), scanLoop m file fuel s = .ok r →
      s.sh.pos ≤ r.sh.pos ∧
      (∃ ts, r.sh.trailerAt = s.sh.trailerAt ++ ts ∧
        ∀ t ∈ ts, s.sh.pos ≤ t ∧ t + 4 ≤ file.length) ∧
      ((∀ p ∈ s.sh.DataPos, p + 4 ≤ file.length) →
        ∀ p ∈ r.sh.DataPos, p + 4 ≤ file.length) ∧
      ((s.sh.available_vars = none ∨
          ∃ rest, s.sh.available_vars = some ("TIME" :: "CPU" :: "DT" :: "UNKN03" :: rest)) →
        (r.sh.available_vars = none ∨
          ∃ rest, r.sh.available_vars = some ("TIME" :: "CPU" :: "DT" :: "UNKN03" :: rest))) ∧
      ((∀ t ∈ s.sh.trailerAt, t + 4 ≤ s.sh.pos) →
        ∀ t ∈ r.sh.trailerAt, t + 4 ≤ r.sh.pos) := by
  intro fuel
  induction fuel with
  | zero => intro s r h; cases h
  | succ fuel ih =>
      intro s r h
      rw [scanLoop] at h
      split at h
      · cases h
        exact ⟨le_refl _, ⟨[], by simp, by simp⟩, fun hd => hd, fun ha => ha, fun ht => ht⟩
      · cases hstp : stepBody m file s with
        | error e => rw [hstp] at h; cases h
        | ok pr =>
          obtain ⟨stp, brk⟩ := pr
          rw [hstp] at h
          obtain ⟨hbrk, sh', tl, hcore, htb, hsh, hvf⟩ := stepBody_inv hstp
          subst hbrk
          replace h : scanLoop m file fuel stp = .ok r := h
          obtain ⟨hcf, hpos4⟩ := stepCore_facts hcore
          obtain ⟨hp, ⟨ts, hts, htsb⟩, hdp, havs, htr⟩ := ih _ _ h
          have hposmid : stp.sh.pos = sh'.pos + 4 := by rw [hsh]
          have htrmid : stp.sh.trailerAt = s.sh.trailerAt ++ [sh'.pos] := by
            rw [hsh]; simp [hcf.trailer]
          have htblen : sh'.pos + 4 ≤ file.length := by
            have : (pyRead file sh'.pos 4).length = min 4 (file.length - sh'.pos) := by
              simp [pyRead]
            omega
          refine ⟨?_, ⟨[sh'.pos] ++ ts, ?_, ?_⟩, ?_, ?_, ?_⟩
          · omega
          · rw [hts, htrmid, List.append_assoc]
          · intro t htl
            rcases List.mem_append.mp htl with htl | htl
            · have : t = sh'.pos := by simpa using htl
              subst this
              exact ⟨by omega, htblen⟩
            · have := htsb t htl
              constructor
              · omega
              · exact this.2
          · intro hd
            apply hdp
            intro p hpmem
            have hpmem' : p ∈ sh'.DataPos := by
              rw [hsh] at hpmem; simpa using hpmem
            rcases hcf.dataPos p hpmem' with hin | hle
            · exact hd p hin
            · omega
          · intro ha
            apply havs
            have hsteq : stp.sh.available_vars = sh'.available_vars := by rw [hsh]
            rw [hsteq]
            rcases hvf with ⟨htl, _⟩ | ⟨k, htl, _⟩
            · rw [hcf.avs_noKey htl]; exact ha
            · obtain ⟨hset, ⟨rest, hshape⟩, _⟩ := hcf.avs_key5 k htl
              right
              exact ⟨rest, by rw [hset, hshape]⟩
          · intro ht
            apply htr
            intro t htl
            rw [htrmid] at htl
            rcases List.mem_append.mp htl with htl | htl
            · have := ht t htl
              omega
            · have : t = sh'.pos := by simpa using htl
              subst this
              omega

/-- Lockstep of two successful scans of the *same file* under different
variable-search modes: the record walk never consults the mode, so the
shared state agrees throughout; the mode-specific fields are either both
still initial or both produced by `varsTail` on the same KEY-group output. -/
theorem scanLoop_both_ok (m1 m2 : ScanMode) (file : Bytes) :
    ∀ (fuel : Nat) (s1 s2 r1 r2 : ScanState),
      s1.sh = s2.sh →
      ((s1.vf = initVF ∧ s2.vf = initVF) ∨
        ∃ k, varsTail m1 k = .ok s1.vf ∧ varsTail m2 k = .ok s2.vf) →
      scanLoop m1 file fuel s1 = .ok r1 → scanLoop m2 file fuel s2 = .ok r2 →
      r1.sh = r2.sh ∧
      ((r1.vf = initVF ∧ r2.vf = initVF) ∨
        ∃ k, varsTail m1 k = .ok r1.vf ∧ varsTail m2 k = .ok r2.vf) := by
  intro fuel
  induction fuel with
  | zero => intro s1 s2 r1 r2 _ _ h1 _; cases h1
  | succ fuel ih =>
      intro s1 s2 r1 r2 hsh hvfr h1 h2
      rw [scanLoop] at h1 h2
      rw [← hsh] at h2
      split at h1
      · split at h2
        · cases h1; cases h2
          exact ⟨hsh, hvfr⟩
        · rename_i hA hB; exact absurd hA hB
      · split at h2
        · rename_i hA hB; exact absurd hB hA
        · cases hstp1 : stepBody m1 file s1 with
          | error e => rw [hstp1] at h1; cases h1
          | ok pr1 =>
            obtain ⟨t1, brk1⟩ := pr1
            rw [hstp1] at h1
            cases hstp2 : stepBody m2 file s2 with
            | error e => rw [hstp2] at h2; cases h2
            | ok pr2 =>
              obtain ⟨t2, brk2⟩ := pr2
              rw [hstp2] at h2
              obtain ⟨hbrk1, sh1', tl1, hcore1, htb1, hsh1, hvf1⟩ := stepBody_inv hstp1
              obtain ⟨hbrk2, sh2', tl2, hcore2, htb2, hsh2, hvf2⟩ := stepBody_inv hstp2
              subst hbrk1; subst hbrk2
              replace h1 : scanLoop m1 file fuel t1 = .ok r1 := h1
              replace h2 : scanLoop m2 file fuel t2 = .ok r2 := h2
              rw [← hsh] at hcore2
              rw [hcore1] at hcore2
              obtain ⟨hshq, htlq⟩ : sh2' = sh1' ∧ tl2 = tl1 := by
                have := hcore2
                simp only [Except.ok.injEq, Prod.mk.injEq] at this
                exact ⟨this.1.symm, this.2.symm⟩
              subst hshq; subst htlq
              have hshs : t1.sh = t2.sh := by rw [hsh1, hsh2]
              have hvfs : (t1.vf = initVF ∧ t2.vf = initVF) ∨
                  ∃ k, varsTail m1 k = .ok t1.vf ∧ varsTail m2 k = .ok t2.vf := by
                rcases hvf1 with ⟨htl, hkeep1⟩ | ⟨k, htl, hset1⟩
                · rcases hvf2 with ⟨_, hkeep2⟩ | ⟨k2, htl2, _⟩
                  · rw [hkeep1, hkeep2]; exact hvfr
                  · rw [htl] at htl2; cases htl2
                · rcases hvf2 with ⟨htl2, _⟩ | ⟨k2, htl2, hset2⟩
                  · rw [htl] at htl2; cases htl2
                  · rw [htl] at htl2
                    cases htl2
                    exact Or.inr ⟨k, hset1, hset2⟩
              exact ih t1 t2 r1 r2 hshs hvfs h1 h2

/-- With no variables requested, the mode-specific tail always succeeds:
only position 0 (TIME) is looked up. -/
theorem varsTail_empty (k : Key5Out) (rest : List String)
    (hudm : k.udmFull0 = "sec" :: rest) :
    varsTail (.extract []) k =
      .ok ⟨some ["sec"], some [0, k.nTot + 4], some [0]⟩ := by
  simp only [varsTail, computeSearch, modeSrc]
  rw [List.mapM_nil, exPure_def, exBind_ok]
  rw [show ([0] : List Nat).mapM (pyNth k.udmFull0) =
    (pyNth k.udmFull0 0 >>= fun u => pure [u]) from by
      rw [List.mapM_cons, List.mapM_nil]; rfl]
  rw [hudm]
  rfl

/-- A successful inspection scan transfers to a successful empty-request
extraction scan over the same file, with the same shared state. -/
theorem scanLoop_inspect_to_empty (file : Bytes) :
    ∀ (fuel : Nat) (s1 s2 r1 : ScanState),
      s1.sh = s2.sh →
      EmptyVfInv s2.sh s2.vf →
      scanLoop .inspect file fuel s1 = .ok r1 →
      ∃ r2, scanLoop (.extract []) file fuel s2 = .ok r2 ∧ r2.sh = r1.sh ∧
        EmptyVfInv r2.sh r2.vf := by
  intro fuel
  induction fuel with
  | zero => intro s1 s2 r1 _ _ h1; cases h1
  | succ fuel ih =>
      intro s1 s2 r1 hsh hinv h1
      rw [scanLoop] at h1
      split at h1
      · cases h1
        refine ⟨s2, ?_, by rw [hsh], hinv⟩
        rw [scanLoop]
        rw [if_pos (by rw [← hsh]; assumption)]
      · rename_i hne
        cases hstp1 : stepBody .inspect file s1 with
        | error e => rw [hstp1] at h1; cases h1
        | ok pr1 =>
          obtain ⟨t1, brk1⟩ := pr1
          rw [hstp1] at h1
          obtain ⟨hbrk1, sh', tl, hcore, htb, hsh1, hvf1⟩ := stepBody_inv hstp1
          subst hbrk1
          replace h1 : scanLoop .inspect file fuel t1 = .ok r1 := h1
          obtain ⟨hcf, hpos4⟩ := stepCore_facts hcore
          have hcore2 : stepCore file s2.sh = .ok (sh', tl) := by rw [← hsh]; exact hcore
          have hfin : ∀ vf : VarsFields, finTrailer file sh' vf = .ok (⟨t1.sh, vf⟩, false) := by
            intro vf
            simp only [finTrailer]
            rw [if_neg (by omega)]
            rw [hsh1]
          rcases hvf1 with ⟨htl, _⟩ | ⟨k, htl, _⟩
          · subst htl
            have hstp2 : stepBody (.extract []) file s2 = .ok (⟨t1.sh, s2.vf⟩, false) := by
              unfold stepBody
              rw [hcore2]
              exact hfin s2.vf
            have havs_keep : sh'.available_vars = s2.sh.available_vars := by
              rw [hcf.avs_noKey rfl, hsh]
            have hinv' : EmptyVfInv t1.sh s2.vf := by
              rcases hinv with ⟨hnone, hin⟩ | ⟨n, hv⟩
              · exact Or.inl ⟨by rw [hsh1]; simpa [havs_keep] using hnone, hin⟩
              · exact Or.inr ⟨n, hv⟩
            obtain ⟨r2, hl2, hshr, hinvr⟩ := ih t1 ⟨t1.sh, s2.vf⟩ r1 rfl hinv' h1
            refine ⟨r2, ?_, hshr, hinvr⟩
            rw [scanLoop]
            rw [if_neg (by rw [← hsh]; assumption)]
            rw [hstp2]
            exact hl2
          · subst htl
            obtain ⟨hset, ⟨rest, hshape⟩, ⟨rest2, hudm⟩⟩ := hcf.avs_key5 k rfl
            have hvt2 := varsTail_empty k rest2 hudm
            have hstp2 : stepBody (.extract []) file s2 =
                .ok (⟨t1.sh, ⟨some ["sec"], some [0, k.nTot + 4], some [0]⟩⟩, false) := by
              have h0 : stepBody (.extract []) file s2 =
                  (match varsTail (.extract []) k with
                   | .error e => .error e
                   | .ok vf => finTrailer file sh' vf) := by
                unfold stepBody
                rw [hcore2]
              rw [h0, hvt2]
              exact hfin _
            have hinv' : EmptyVfInv t1.sh
                (⟨some ["sec"], some [0, k.nTot + 4], some [0]⟩ : VarsFields) :=
              Or.inr ⟨k.nTot, rfl⟩
            obtain ⟨r2, hl2, hshr, hinvr⟩ :=
              ih t1 ⟨t1.sh, ⟨some ["sec"], some [0, k.nTot + 4], some [0]⟩⟩ r1 rfl hinv' h1
            refine ⟨r2, ?_, hshr, hinvr⟩
            rw [scanLoop]
            rw [if_neg (by rw [← hsh]; assumption)]
            rw [hstp2]
            exact hl2

theorem mapM_ok_of_forall_mem {α β : Type} (f : α → Except PyErr β) (g : α → β) :
    ∀ l : List α, (∀ x ∈ l, f x = .ok (g x)) → l.mapM f = .ok (l.map g) := by
  intro l
  induction l with
  | nil => intro _; rfl
  | cons a t ih =>
      intro hall
      rw [List.mapM_cons, hall a (by simp), exBind_ok,
        ih (fun x hx => hall x (by simp [hx])), exBind_ok, exPure_def, List.map_cons]

/-- Inversion of the mode-specific tail: the fields carry the looked-up
positions through the reindex/sort/double-argsort pipeline. -/
theorem varsTail_inv {m : ScanMode} {k : Key5Out} {vf : VarsFields}
    (h : varsTail m k = .ok vf) :
    ∃ ps udm, computeSearch k.avs (modeSrc m k.avs) = .ok ps ∧
      (0 :: ps).mapM (pyNth k.udmFull0) = .ok udm ∧
      vf = ⟨some udm, some (pySortNat (0 :: ps) ++ [k.nTot + 4]),
            some (pyArgsort (pyArgsort (0 :: ps)))⟩ := by
  simp only [varsTail] at h
  cases hps : computeSearch k.avs (modeSrc m k.avs) with
  | error e => rw [hps, exBind_error] at h; cases h
  | ok ps =>
      rw [hps, exBind_ok] at h
      cases hudm : (0 :: ps).mapM (pyNth k.udmFull0) with
      | error e => rw [hudm, exBind_error] at h; cases h
      | ok udm =>
          rw [hudm, exBind_ok] at h
          cases h
          exact ⟨ps, udm, rfl, hudm, rfl⟩

/-- One data-block row of the extraction pass: it has one value per sorted
position (the sentinel excluded), and its first value is the 4-byte field at
the block start — catalog index 0, TIME. -/
theorem phase2_row {file : Bytes} {ps : List Nat} {sent : Nat} {p : Nat} {row : List Nat}
    (h : readRowAux file (p : Int) (pySortNat (0 :: ps) ++ [sent]) = .ok row) :
    row.length = ps.length + 1 ∧
    ∃ v rest, row = v :: rest ∧ readF32 file (p : Int) = .ok v := by
  rw [pySortNat_zero_cons] at h
  rw [show (0 :: pySortNat ps) ++ [sent] = 0 :: (pySortNat ps ++ [sent]) from rfl] at h
  rw [readRowAux_eq] at h
  rw [show (0 :: (pySortNat ps ++ [sent])).dropLast = 0 :: pySortNat ps from by
    rw [show (0 :: (pySortNat ps ++ [sent])) = (0 :: pySortNat ps) ++ [sent] from rfl,
      List.dropLast_concat]] at h
  have hlen := mapM_ok_length h
  have hf := mapM_ok_forall2 _ _ _ h
  constructor
  · rw [hlen]
    simp [pySortNat_length]
  · cases hf with
    | cons hv htail =>
        refine ⟨_, _, rfl, ?_⟩
        simpa using hv

theorem computeSearch_length {avs src : List String} {ps : List Nat}
    (h : computeSearch avs src = .ok ps) : ps.length = src.length := by
  unfold computeSearch at h
  exact mapM_ok_length h


/-- Inversion of a successful `MCRBin` run into its pieces: the extract-mode
scan, the bound fields, the data pass, and the assembled output. -/
theorem MCRBinFull_inv {file : Bytes} {vars : List String} {R : MCROut}
    (h : MCRBinFull file vars = .ok R) :
    ∃ s vsp swp udm avs title data,
      scanLoop (.extract vars) file (fuelFor file) initState = .ok s ∧
      s.vf.VarSrchPos = some vsp ∧ s.vf.SwapPosVarSrch = some swp ∧
      s.vf.VarUdmFull = some udm ∧ s.sh.available_vars = some avs ∧
      s.sh.probemTitle = some title ∧
      s.sh.DataPos.mapM (fun (pos : Nat) => readRowAux file (pos : Int) vsp) = .ok data ∧
      R = { final := s,
            time := (data.map (fun row => npFancy row swp)).map (fun r => r.getD 0 0),
            values := (data.map (fun row => npFancy row swp)).map (fun r => r.drop 1),
            units := udm.drop 1, avs := avs, title := title } := by
  unfold MCRBinFull at h
  split at h
  · cases h
  · rename_i s hscan
    split at h
    · rename_i vsp swp udm avs title hv hs hu ha ht
      split at h
      · cases h
      · rename_i data hdata
        simp only [Except.ok.injEq] at h
        exact ⟨s, vsp, swp, udm, avs, title, data, hscan, hv, hs, hu, ha, ht, hdata, h.symm⟩
    · cases h

/-- If `Forall₂ R l₁ l₂` and `y ∈ l₂`, some `x ∈ l₁` is related to it. -/
theorem forall2_mem_right {α β : Type} {R : α → β → Prop} :
    ∀ {l1 : List α} {l2 : List β}, List.Forall₂ R l1 l2 → ∀ y ∈ l2, ∃ x ∈ l1, R x y := by
  intro l1
  induction l1 with
  | nil => intro l2 h y hy; cases h; cases hy
  | cons a t ih =>
      intro l2 h y hy
      cases h with
      | cons hab htl =>
          rcases List.mem_cons.mp hy with hy | hy
          · subst hy; exact ⟨a, by simp, hab⟩
          · obtain ⟨x, hx, hr⟩ := ih htl y hy
            exact ⟨x, by simp [hx], hr⟩

/-! ## Claim C8 -/

/-- **C8**: on every successful extraction, TIME is fetched implicitly: the
time axis has exactly one entry per indexed data block — the 32-bit field at
the start of the block, catalog index 0 — and the values matrix has the same
number of rows and exactly `len(vars_to_search)` columns, TIME not among
them. -/
theorem C8_time_axis_implicit_and_column_count :
    ∀ (file : Bytes) (vars : List String) (R : MCROut),
      MCRBinFull file vars = .ok R →
      R.time.length = R.final.sh.DataPos.length ∧
      R.values.length = R.final.sh.DataPos.length ∧
      (∀ row ∈ R.values, row.length = vars.length) ∧
      R.final.sh.DataPos.mapM (fun (p : Nat) => readF32 file (p : Int)) = .ok R.time := by
  intro file vars R h
  obtain ⟨s, vsp, swp, udm, avs, title, data, hscan, hv, hs, hu, ha, ht, hdata, hR⟩ :=
    MCRBinFull_inv h
  have hself := scanLoop_both_ok (.extract vars) (.extract vars) file (fuelFor file)
    initState initState s s rfl (Or.inl ⟨rfl, rfl⟩) hscan hscan
  rcases hself.2 with ⟨hinit, _⟩ | ⟨k, hvt, _⟩
  · rw [hinit] at hv; cases hv
  · obtain ⟨ps, udm0, hps, hudm0, hvfeq⟩ := varsTail_inv hvt
    have hvsp : vsp = pySortNat (0 :: ps) ++ [k.nTot + 4] := by
      rw [hvfeq] at hv; cases hv; rfl
    have hswp : swp = pyArgsort (pyArgsort (0 :: ps)) := by
      rw [hvfeq] at hs; cases hs; rfl
    have hlenps : ps.length = vars.length := by
      simpa [modeSrc] using computeSearch_length hps
    subst hvsp hswp hR
    obtain ⟨tin, hin, hinlen⟩ := pyArgsort_zero_cons ps
    obtain ⟨tswp, hswpc, hswplen⟩ := pyArgsort_zero_cons tin
    have hswp2 : pyArgsort (pyArgsort (0 :: ps)) = 0 :: tswp := by rw [hin, hswpc]
    have hf2 := mapM_ok_forall2 _ _ _ hdata
    have hdlen := mapM_ok_length hdata
    refine ⟨by simp [hdlen], by simp [hdlen], ?_, ?_⟩
    · intro row hrow
      simp only [List.map_map, List.mem_map] at hrow
      obtain ⟨row0, hrow0, hroweq⟩ := hrow
      rw [← hroweq]
      simp only [Function.comp, npFancy, hswp2]
      simp [hswplen, hinlen, hlenps]
    · simp only [List.map_map]
      apply forall2_mapM_ok
      rw [List.forall₂_map_right_iff]
      apply List.Forall₂.imp ?_ hf2
      intro p row hread
      obtain ⟨hrlen, v, rest, hre, hv0⟩ := phase2_row hread
      subst hre
      simp only [Function.comp, npFancy, hswp2]
      simpa using hv0

/-- Forward evaluation of `MCRBin` from its pieces. -/
theorem MCRBinFull_mk {file : Bytes} {vars : List String} {s : ScanState}
    {vsp swp : List Nat} {udm avs : List String} {title : String} {data : List (List Nat)}
    (hscan : scanLoop (.extract vars) file (fuelFor file) initState = .ok s)
    (hv : s.vf.VarSrchPos = some vsp) (hs : s.vf.SwapPosVarSrch = some swp)
    (hu : s.vf.VarUdmFull = some udm) (ha : s.sh.available_vars = some avs)
    (ht : s.sh.probemTitle = some title)
    (hdata : s.sh.DataPos.mapM (fun (pos : Nat) => readRowAux file (pos : Int) vsp) = .ok data) :
    MCRBinFull file vars =
      .ok { final := s,
            time := (data.map (fun row => npFancy row swp)).map (fun r => r.getD 0 0),
            values := (data.map (fun row => npFancy row swp)).map (fun r => r.drop 1),
            units := udm.drop 1, avs := avs, title := title } := by
  unfold MCRBinFull
  split
  · rename_i e heq
    rw [hscan] at heq
    cases heq
  · rename_i s' heq
    rw [hscan] at heq
    cases heq
    split
    · rename_i vsp' swp' udm' avs' title' hv' hs' hu' ha' ht'
      rw [hv] at hv'
      rw [hs] at hs'
      rw [hu] at hu'
      rw [ha] at ha'
      rw [ht] at ht'
      cases hv'
      cases hs'
      cases hu'
      cases ha'
      cases ht'
      split
      · rename_i e heq2
        rw [hdata] at heq2
        cases heq2
      · rename_i data' heq2
        rw [hdata] at heq2
        cases heq2
        rfl
    · rename_i hnone
      exact absurd (hnone vsp swp udm avs title hv hs hu ha ht) not_false

/-- With only TIME to read, a data-block row is the block's first field. -/
theorem readRow_single (file : Bytes) (p n : Nat) (hp : p + 4 ≤ file.length) :
    readRowAux file (p : Int) [0, n + 4] = .ok [le32 (pyRead file p 4)] := by
  have hr : readF32 file (p : Int) = .ok (le32 (pyRead file p 4)) := by
    unfold readF32
    rw [if_neg (by simp)]
    have h4 : (pyRead file ((p : Int)).toNat 4).length = 4 := by
      simp [pyRead]
      omega
    rw [if_pos h4]
    simp
  rw [show ([0, n + 4] : List Nat) = 0 :: [n + 4] from rfl, readRowAux_eq]
  rw [show ((0 : Nat) :: [n + 4]).dropLast = [0] from rfl]
  rw [List.mapM_cons, List.mapM_nil]
  rw [show ((p : Int) + (((0 : Nat) : Int) - ((0 : Nat) : Int)) * 4) = (p : Int) by simp]
  rw [hr]
  rfl

/-! ## Claim C10 -/

/-- **C10**: extraction with an empty requested-name list on a validly
opened file succeeds, producing one time entry per indexed data block and a
values matrix with that many rows and zero columns. -/
theorem C10_empty_request_succeeds :
    ∀ (file : Bytes) (avs : List String) (t : String),
      inspectPTF file = .ok (avs, t) →
      ∃ R, MCRBinFull file [] = .ok R ∧
        R.time.length = R.final.sh.DataPos.length ∧
        R.values.length = R.final.sh.DataPos.length ∧
        (∀ row ∈ R.values, row = []) := by
  intro file avs t h
  unfold inspectPTF at h
  cases hscan1 : inspectRun file with
  | error e => rw [hscan1] at h; cases h
  | ok s =>
      rw [hscan1] at h
      replace h : (match s.sh.available_vars, s.sh.probemTitle with
          | some avs', some t' => Except.ok (avs', t')
          | _, _ => Except.error PyErr.unboundLocal) = Except.ok (avs, t) := h
      split at h
      case _ avs' t' ha ht =>
          simp only [Except.ok.injEq, Prod.mk.injEq] at h
          obtain ⟨hav, htv⟩ := h
          subst hav
          subst htv
          unfold inspectRun at hscan1
          obtain ⟨r2, hscan2, hsh2, hinv⟩ := scanLoop_inspect_to_empty file
            (fuelFor file) initState initState s rfl (Or.inl ⟨rfl, rfl⟩) hscan1
          rcases hinv with ⟨hnone, _⟩ | ⟨n, hvf2⟩
          · rw [hsh2, ha] at hnone
            cases hnone
          · have hbound : ∀ p ∈ r2.sh.DataPos, p + 4 ≤ file.length := by
              have hfacts := scanLoop_facts .inspect file (fuelFor file) initState s hscan1
              intro p hp
              exact hfacts.2.2.1 (by intro q hq; cases hq) p (by rw [← hsh2]; exact hp)
            have hdata : r2.sh.DataPos.mapM
                (fun (pos : Nat) => readRowAux file (pos : Int) [0, n + 4]) =
                .ok (r2.sh.DataPos.map (fun p => [le32 (pyRead file p 4)])) :=
              mapM_ok_of_forall_mem _ _ _
                (fun p hp => readRow_single file p n (hbound p hp))
            have hM := MCRBinFull_mk hscan2
              (by rw [hvf2]) (by rw [hvf2]) (by rw [hvf2])
              (by rw [hsh2]; exact ha) (by rw [hsh2]; exact ht) hdata
            refine ⟨_, hM, ?_, ?_, ?_⟩
            · simp
            · simp
            · intro row hrow
              simp only [List.map_map, List.mem_map] at hrow
              obtain ⟨p, hp, hroweq⟩ := hrow
              rw [← hroweq]
              rfl
      case _ => cases h

theorem computeSearch_pair {avs : List String} {x y : String} {ps : List Nat}
    (h : computeSearch avs [x, y] = .ok ps) :
    ∃ px py, pyIndexOf avs (pyStrip x) = .ok px ∧
      pyIndexOf avs (pyStrip y) = .ok py ∧ ps = [px, py] := by
  unfold computeSearch at h
  have hf := mapM_ok_forall2 _ _ _ h
  cases hf with
  | cons hx hf =>
    cases hf with
    | cons hy hf =>
      cases hf
      exact ⟨_, _, hx, hy, rfl⟩

theorem pySortNat3 {x y : Nat} (h : x ≤ y) : pySortNat [0, x, y] = [0, x, y] := by
  simp [pySortNat, insNat, h, insNat_zero]

theorem pySortNat3' {x y : Nat} (h : ¬ x ≤ y) : pySortNat [0, x, y] = [0, y, x] := by
  simp [pySortNat, insNat, h, insNat_zero]

theorem pyArgsort3 {x y : Nat} (h : x ≤ y) : pyArgsort [0, x, y] = [0, 1, 2] := by
  simp [pyArgsort, List.enum, List.enumFrom, isortKey, insKey, h]

theorem pyArgsort3' {x y : Nat} (h : ¬ x ≤ y) : pyArgsort [0, x, y] = [0, 2, 1] := by
  simp [pyArgsort, List.enum, List.enumFrom, isortKey, insKey, h]

theorem pyArgsort_id3 : pyArgsort [0, 1, 2] = [0, 1, 2] := by decide

theorem pyArgsort_swap3 : pyArgsort [0, 2, 1] = [0, 2, 1] := by decide

/-- Inversion of a three-read data row (positions `0`, `u`, `v`, then the
sentinel). -/
theorem readRow3_inv {file : Bytes} {P u v sent : Nat} {row : List Nat}
    (h : readRowAux file (P : Int) (0 :: u :: v :: [sent]) = .ok row) :
    ∃ r0 r1 r2, row = [r0, r1, r2] ∧
      readF32 file (P : Int) = .ok r0 ∧
      readF32 file ((P : Int) + (u : Int) * 4) = .ok r1 ∧
      readF32 file ((P : Int) + (v : Int) * 4) = .ok r2 := by
  rw [readRowAux_eq] at h
  rw [show ((0 : Nat) :: u :: v :: [sent]).dropLast = [0, u, v] from rfl] at h
  have hf := mapM_ok_forall2 _ _ _ h
  cases hf with
  | cons h0 hf =>
    cases hf with
    | cons h1 hf =>
      cases hf with
      | cons h2 hf =>
        cases hf
        exact ⟨_, _, _, rfl, by simpa using h0, by simpa using h1, by simpa using h2⟩

/-! ## Claim C7 -/

/-- **C7**: requesting two catalog variables in either order yields the same
value columns, reversed: the double argsort of ptf.py lines 179-184/203
restores the requested order after the sorted minimal-seek reads. -/
theorem C7_swapped_request_reverses_columns :
    ∀ (file : Bytes) (a b : String) (R1 R2 : MCROut),
      MCRBinFull file [a, b] = .ok R1 → MCRBinFull file [b, a] = .ok R2 →
      R2.values = R1.values.map List.reverse := by
  intro file a b R1 R2 h1 h2
  obtain ⟨s1, vsp1, swp1, udm1, avs1, title1, data1, hscan1, hv1, hs1, hu1, ha1, ht1,
    hdata1, hR1⟩ := MCRBinFull_inv h1
  obtain ⟨s2, vsp2, swp2, udm2, avs2, title2, data2, hscan2, hv2, hs2, hu2, ha2, ht2,
    hdata2, hR2⟩ := MCRBinFull_inv h2
  obtain ⟨hshEq, hvfrel⟩ := scanLoop_both_ok (.extract [a, b]) (.extract [b, a]) file
    (fuelFor file) initState initState s1 s2 rfl (Or.inl ⟨rfl, rfl⟩) hscan1 hscan2
  rcases hvfrel with ⟨hi1, _⟩ | ⟨k, hvt1, hvt2⟩
  · rw [hi1] at hv1; cases hv1
  · obtain ⟨ps1, udm01, hps1, _, hvfeq1⟩ := varsTail_inv hvt1
    obtain ⟨ps2, udm02, hps2, _, hvfeq2⟩ := varsTail_inv hvt2
    obtain ⟨pa, pb, hpa, hpb, hps1e⟩ := computeSearch_pair hps1
    obtain ⟨pb', pa', hpb', hpa', hps2e⟩ := computeSearch_pair hps2
    have hpaa : pa' = pa := by
      rw [hpa] at hpa'
      cases hpa'
      rfl
    have hpbb : pb' = pb := by
      rw [hpb] at hpb'
      cases hpb'
      rfl
    rw [hpaa, hpbb] at hps2e
    subst hps1e
    subst hps2e
    have hvsp1 : vsp1 = pySortNat [0, pa, pb] ++ [k.nTot + 4] := by
      rw [hvfeq1] at hv1
      cases hv1
      rfl
    have hvsp2 : vsp2 = pySortNat [0, pb, pa] ++ [k.nTot + 4] := by
      rw [hvfeq2] at hv2
      cases hv2
      rfl
    have hswp1 : swp1 = pyArgsort (pyArgsort [0, pa, pb]) := by
      rw [hvfeq1] at hs1
      cases hs1
      rfl
    have hswp2 : swp2 = pyArgsort (pyArgsort [0, pb, pa]) := by
      rw [hvfeq2] at hs2
      cases hs2
      rfl
    have hsorteq : pySortNat [0, pb, pa] = pySortNat [0, pa, pb] := by
      by_cases hab : pa ≤ pb
      · by_cases hba : pb ≤ pa
        · have hep : pa = pb := Nat.le_antisymm hab hba
          subst hep
          rfl
        · rw [pySortNat3' hba, pySortNat3 hab]
      · have hba : pb ≤ pa := by omega
        rw [pySortNat3 hba, pySortNat3' hab]
    have hdataeq : data2 = data1 := by
      rw [hvsp2, hsorteq, ← hvsp1, ← hshEq] at hdata2
      rw [hdata1] at hdata2
      cases hdata2
      rfl
    subst hdataeq
    rw [hR1, hR2]
    simp only [List.map_map]
    apply List.map_congr_left
    intro row hrow
    obtain ⟨P, hP, hread⟩ := forall2_mem_right (mapM_ok_forall2 _ _ _ hdata1) row hrow
    by_cases hab : pa ≤ pb
    · rw [hvsp1, pySortNat3 hab] at hread
      obtain ⟨r0, r1, r2, hre, h0, hr1, hr2⟩ := readRow3_inv hread
      subst hre
      by_cases hba : pb ≤ pa
      · have hep : pa = pb := Nat.le_antisymm hab hba
        subst hep
        have hr12 : r1 = r2 := by
          rw [hr1] at hr2
          cases hr2
          rfl
        subst hr12
        rw [hswp1, hswp2, pyArgsort3 hab, pyArgsort_id3]
        rfl
      · rw [hswp1, hswp2, pyArgsort3 hab, pyArgsort3' hba, pyArgsort_id3, pyArgsort_swap3]
        rfl
    · have hba : pb ≤ pa := by omega
      rw [hvsp1, pySortNat3' hab] at hread
      obtain ⟨r0, r1, r2, hre, h0, hr1, hr2⟩ := readRow3_inv hread
      subst hre
      rw [hswp1, hswp2, pyArgsort3' hab, pyArgsort3 hba, pyArgsort_id3, pyArgsort_swap3]
      rfl

theorem pySlice_length {l : List Nat} {a b : Int} (ha : 0 ≤ a) (hab : a ≤ b)
    (hb : b ≤ (l.length : Int)) : (pySlice l a b).length = (b - a).toNat := by
  unfold pySlice pyBound
  rw [if_neg (by omega), if_neg (by omega)]
  simp only [List.length_drop, List.length_take]
  omega

/-- The enumerate-and-index fold of ptf.py lines 266-270 equals the direct
recursion over (name, span) pairs when the two lists are aligned. -/
theorem buildVarDict_eq_zip (varNum : List Nat) :
    ∀ (names : List String) (i0 : Nat) (itm : List Int)
      (st : List (String × List Nat) × Int),
      itm.length = i0 + names.length →
      ((List.enumFrom i0 names).foldl
        (fun (st : List (String × List Nat) × Int) p =>
          (pyDictSet st.1 p.2 (pySlice varNum st.2 (st.2 + itm.getD p.1 0)),
           st.2 + itm.getD p.1 0)) st).1
        = zipBuildAux varNum (names.zip (itm.drop i0)) st := by
  intro names
  induction names with
  | nil => intro i0 itm st _; simp [zipBuildAux]
  | cons nm rest ih =>
      intro i0 itm st hlen
      have hi0 : i0 < itm.length := by
        simp only [List.length_cons] at hlen; omega
      have hdrop : itm.drop i0 = itm.getD i0 0 :: itm.drop (i0 + 1) := by
        rw [List.getD_eq_getElem itm 0 hi0]
        exact List.drop_eq_getElem_cons hi0
      rw [hdrop]
      simp only [List.enumFrom, List.zip_cons_cons, List.foldl_cons]
      obtain ⟨d, c⟩ := st
      rw [ih (i0 + 1) itm _
        (by simp only [List.length_cons] at hlen ⊢; omega)]
      rfl

theorem buildVarDict_eq (varNam : List String) (itm : List Int) (varNum : List Nat)
    (hlen : itm.length = varNam.length) :
    buildVarDict varNam itm varNum = zipBuildAux varNum (varNam.zip itm) ([], 0) := by
  have h := buildVarDict_eq_zip varNum varNam 0 itm ([], 0) (by simpa using hlen)
  simpa [buildVarDict, List.enum] using h

theorem derivedNames_append (a b : List (String × List Nat)) :
    derivedNames (a ++ b) = derivedNames a ++ derivedNames b := by
  simp [derivedNames]

theorem zipBuild_len (varNum : List Nat) :
    ∀ (pairs : List (String × Int)) (d : List (String × List Nat)) (c : Int),
      (∀ q ∈ pairs, ∀ e ∈ d, e.1 ≠ q.1) →
      (pairs.map Prod.fst).Nodup →
      0 ≤ c → (∀ q ∈ pairs, 0 ≤ q.2) →
      c + (pairs.map Prod.snd).sum ≤ (varNum.length : Int) →
      (derivedNames (zipBuildAux varNum pairs (d, c))).length
        = (derivedNames d).length + ((pairs.map Prod.snd).sum).toNat := by
  intro pairs
  induction pairs with
  | nil => intro d c _ _ _ _ _; simp [zipBuildAux]
  | cons q rest ih =>
      obtain ⟨nm, span⟩ := q
      intro d c hfresh hnodup hc hpos hsum
      have hspan : (0 : Int) ≤ span := hpos (nm, span) (by simp)
      have hrestpos : ∀ q ∈ rest, (0 : Int) ≤ q.2 :=
        fun q hq => hpos q (List.mem_cons_of_mem _ hq)
      have hrestsum : (0 : Int) ≤ (rest.map Prod.snd).sum := by
        apply List.sum_nonneg
        intro x hx
        obtain ⟨q, hq, rfl⟩ := List.mem_map.mp hx
        exact hrestpos q hq
      simp only [List.map_cons, List.sum_cons] at hsum ⊢
      have hcb : c + span ≤ (varNum.length : Int) := by omega
      have hnmfresh : ∀ e ∈ d, e.1 ≠ nm :=
        fun e he => hfresh (nm, span) (by simp) e he
      have hany : d.any (fun p => p.1 = nm) = false := by
        simp only [List.any_eq_false, decide_eq_true_eq]
        exact fun p hp => hnmfresh p hp
      have hset : pyDictSet d nm (pySlice varNum c (c + span))
          = d ++ [(nm, pySlice varNum c (c + span))] := by
        unfold pyDictSet; rw [hany]; simp
      have hslen : (pySlice varNum c (c + span)).length = span.toNat :=
        by rw [pySlice_length hc (by omega) hcb]; omega
      have hfresh' : ∀ q ∈ rest,
          ∀ e ∈ d ++ [(nm, pySlice varNum c (c + span))], e.1 ≠ q.1 := by
        intro q hq e he
        rcases List.mem_append.mp he with he | he
        · exact hfresh q (List.mem_cons_of_mem _ hq) e he
        · simp only [List.mem_singleton] at he
          subst he
        -- e.1 = nm; nm ∉ rest.map fst by nodup
          intro hcontra
          have hcontra' : nm = q.1 := hcontra
          have : nm ∈ rest.map Prod.fst := by
            rw [hcontra']; exact List.mem_map.mpr ⟨q, hq, rfl⟩
          exact (List.nodup_cons.mp hnodup).1 this
      have ihr := ih (d ++ [(nm, pySlice varNum c (c + span))]) (c + span)
        hfresh' (List.nodup_cons.mp hnodup).2 (by omega) hrestpos (by omega)
      show (derivedNames (zipBuildAux varNum rest
          (pyDictSet d nm (pySlice varNum c (c + span)), c + span))).length = _
      rw [hset, ihr, derivedNames_append]
      have hone : (derivedNames [(nm, pySlice varNum c (c + span))]).length
          = span.toNat := by
        simp [derivedNames, hslen]
      simp only [List.length_append, hone]
      omega

/-- C4 (amended): (a) every successfully opened file's variable-name list
starts with TIME, CPU, DT, UNKN03 in that order; (b) the length
4 + total_item_count holds for the built catalog whenever the item spans
derived from the KEY group actually validate (distinct base names,
non-negative spans summing to the item-number count) — the source only
prints a warning on mismatch, so the length claim fails for files it still
opens (see the counterexample). -/
theorem C4_first_four_and_validated_length :
    (∀ (file : Bytes) (avs : List String) (t : String),
        inspectPTF file = .ok (avs, t) →
        avs.take 4 = ["TIME", "CPU", "DT", "UNKN03"]) ∧
    (∀ (varNam : List String) (itm : List Int) (varNum : List Nat),
        itm.length = varNam.length → varNam.Nodup →
        (∀ x ∈ itm, 0 ≤ x) → itm.sum = (varNum.length : Int) →
        (["TIME", "CPU", "DT", "UNKN03"]
          ++ derivedNames (buildVarDict varNam itm varNum)).length
          = 4 + varNum.length) := by
  constructor
  · intro file avs t h
    simp only [inspectPTF] at h
    cases hrun : inspectRun file with
    | error e => rw [hrun] at h; cases h
    | ok s =>
        rw [hrun] at h
        replace h : (match s.sh.available_vars, s.sh.probemTitle with
            | some avs, some t => Except.ok (avs, t)
            | _, _ => Except.error PyErr.unboundLocal)
            = Except.ok (avs, t) := h
        have facts := scanLoop_facts .inspect file (fuelFor file) initState s hrun
        have havs := facts.2.2.2.1 (Or.inl rfl)
        cases havs with
        | inl hnone => rw [hnone] at h; cases h
        | inr hsome =>
            obtain ⟨rest, hsome⟩ := hsome
            rw [hsome] at h
            cases ht : s.sh.probemTitle with
            | none => rw [ht] at h; cases h
            | some t' =>
                rw [ht] at h
                cases h
                rfl
  · intro varNam itm varNum h1 h2 h3 h4
    have hle : varNam.length ≤ itm.length := le_of_eq h1.symm
    have hle2 : itm.length ≤ varNam.length := le_of_eq h1
    have hfst : (varNam.zip itm).map Prod.fst = varNam := List.map_fst_zip _ _ hle
    have hsnd : (varNam.zip itm).map Prod.snd = itm := List.map_snd_zip _ _ hle2
    have hz := zipBuild_len varNum (varNam.zip itm) [] 0
      (by intro q _ e he; cases he)
      (by rw [hfst]; exact h2)
      (le_refl 0)
      (by intro q hq; exact h3 q.2 (List.of_mem_zip hq).2)
      (by rw [hsnd, zero_add, h4])
    rw [buildVarDict_eq _ _ _ h1]
    rw [hsnd, h4] at hz
    have hnil : derivedNames ([] : List (String × List Nat)) = [] := rfl
    rw [hnil] at hz
    simp only [List.length_nil, zero_add, Int.toNat_natCast] at hz
    simp only [List.length_append, hz]
    rfl

set_option maxRecDepth 1000000 in
/-- Witness for C7 at `wfFile` with requests `[FOO, BAR]` and `[BAR, FOO]`. -/
theorem C7_swapped_request_reverses_columns_witness :
    ∃ R1 R2, MCRBinFull wfFile ["FOO", "BAR"] = Except.ok R1 ∧
      MCRBinFull wfFile ["BAR", "FOO"] = Except.ok R2 ∧
      R2.values = R1.values.map List.reverse := by
  refine ⟨_, _, rfl, rfl, ?_⟩
  exact C7_swapped_request_reverses_columns wfFile "FOO" "BAR" _ _ rfl rfl

set_option maxRecDepth 1000000 in
/-- Witness for C8 at `wfFile`: two data blocks, two requested names. -/
theorem C8_time_axis_implicit_and_column_count_witness :
    ∃ R, MCRBinFull wfFile ["FOO", "BAR"] = Except.ok R ∧
      R.time.length = R.final.sh.DataPos.length ∧
      R.values.length = R.final.sh.DataPos.length ∧
      (∀ row ∈ R.values, row.length = 2) ∧
      R.final.sh.DataPos.mapM (fun (p : Nat) => readF32 wfFile (p : Int))
        = Except.ok R.time := by
  refine ⟨_, rfl, ?_⟩
  have h := C8_time_axis_implicit_and_column_count wfFile ["FOO", "BAR"] _ rfl
  exact ⟨h.1, h.2.1, fun row hr => h.2.2.1 row hr, h.2.2.2⟩

set_option maxRecDepth 1000000 in
/-- Witness for C10 at `wfFile`. -/
theorem C10_empty_request_succeeds_witness :
    ∃ R, MCRBinFull wfFile [] = Except.ok R ∧
      R.time.length = R.final.sh.DataPos.length ∧
      R.values.length = R.final.sh.DataPos.length ∧
      (∀ row ∈ R.values, row = []) :=
  C10_empty_request_succeeds wfFile
    ["TIME", "CPU", "DT", "UNKN03", "FOO", "BAR"] "TEST RUN" (by rfl)

set_option maxRecDepth 1000000 in
/-- Witness for C4 at `wfFile` and at the validated KEY data of `wfFile`. -/
theorem C4_first_four_and_validated_length_witness :
    inspectPTF wfFile
      = Except.ok (["TIME", "CPU", "DT", "UNKN03", "FOO", "BAR"], "TEST RUN") ∧
    List.take 4 ["TIME", "CPU", "DT", "UNKN03", "FOO", "BAR"]
      = ["TIME", "CPU", "DT", "UNKN03"] ∧
    (["TIME", "CPU", "DT", "UNKN03"]
      ++ derivedNames (buildVarDict ["FOO", "BAR"] [1, 1] [0, 0])).length
      = 4 + 2 := by
  have h : inspectPTF wfFile
      = Except.ok (["TIME", "CPU", "DT", "UNKN03", "FOO", "BAR"], "TEST RUN") := by rfl
  refine ⟨h, C4_first_four_and_validated_length.1 wfFile _ _ h, ?_⟩
  have h2 := C4_first_four_and_validated_length.2 ["FOO", "BAR"] [1, 1] [0, 0]
    rfl (by decide) (by decide) (by decide)
  exact h2

theorem pyRead_length_eq {file1 file2 : Bytes} (hlen : file2.length = file1.length)
    (p n : Nat) : (pyRead file2 p n).length = (pyRead file1 p n).length := by
  simp [pyRead, hlen]

/-- A read whose returned length is `m` is already determined by the bytes
at `[p, p + m)`. -/
theorem pyRead_agree_checked {file1 file2 : Bytes} (hlen : file2.length = file1.length)
    (p n m : Nat) (hchk : (pyRead file1 p n).length = m)
    (hag : ∀ i, p ≤ i → i < p + m → i < file1.length → file2.getD i 0 = file1.getD i 0) :
    pyRead file2 p n = pyRead file1 p n := by
  apply pyRead_agree file1 file2 hlen
  intro i hpi hin hil
  apply hag i hpi _ hil
  have hm : (pyRead file1 p n).length = min n (file1.length - p) := by
    simp [pyRead]
  omega

theorem tagStep_agree {file1 file2 : Bytes} {s sh' : Shared} {tl : StepTail}
    (A : List Nat) (hlen : file2.length = file1.length)
    (h : tagStep file1 s = .ok (sh', tl))
    (hag : ∀ i, s.pos ≤ i → i < sh'.pos → i < file1.length →
      file2.getD i 0 = file1.getD i 0) :
    tagStep file2 (withAft s A) = .ok (withAft sh' A, tl) := by
  simp only [tagStep] at h
  split at h
  · cases h
  · rename_i h4
    split at h
    · cases h
    · rename_i t hdec
      simp only [Except.ok.injEq, Prod.mk.injEq] at h
      obtain ⟨h1, h2⟩ := h
      have hpos : sh'.pos = s.pos + 4 := by rw [← h1]
      have hr : pyRead file2 s.pos 4 = pyRead file1 s.pos 4 :=
        pyRead_agree_checked hlen s.pos 4 4 (by omega)
          (fun i hi1 hi2 hi3 => hag i hi1 (by omega) hi3)
      simp only [tagStep, withAft, hr]
      rw [if_neg h4, hdec]
      rw [← h1, ← h2]

theorem titlStep_agree {file1 file2 : Bytes} {s sh' : Shared} {tl : StepTail} {L : Nat}
    (A : List Nat) (hlen : file2.length = file1.length)
    (h : titlStep file1 s L = .ok (sh', tl))
    (hag : ∀ i, s.pos ≤ i → i < sh'.pos → i < file1.length →
      file2.getD i 0 = file1.getD i 0) :
    titlStep file2 (withAft s A) L = .ok (withAft sh' A, tl) := by
  simp only [titlStep] at h
  split at h
  · cases h
  · rename_i h4
    split at h
    · cases h
    · rename_i t hdec
      simp only [Except.ok.injEq, Prod.mk.injEq] at h
      obtain ⟨h1, h2⟩ := h
      have hpos : sh'.pos = s.pos + L := by rw [← h1]
      have hr : pyRead file2 s.pos L = pyRead file1 s.pos L :=
        pyRead_agree_checked hlen s.pos L ((pyRead file1 s.pos L).length) rfl
          (fun i hi1 hi2 hi3 => hag i hi1 (by omega) hi3)
      simp only [titlStep, withAft, hr]
      rw [if_neg h4, hdec]
      rw [← h1, ← h2]

theorem key1Step_agree {file1 file2 : Bytes} {s sh' : Shared} {tl : StepTail}
    (A : List Nat) (hlen : file2.length = file1.length)
    (h : key1Step file1 s = .ok (sh', tl))
    (hag : ∀ i, s.pos ≤ i → i < sh'.pos → i < file1.length →
      file2.getD i 0 = file1.getD i 0) :
    key1Step file2 (withAft s A) = .ok (withAft sh' A, tl) := by
  simp only [key1Step] at h
  split at h
  · cases h
  · rename_i h8
    simp only [Except.ok.injEq, Prod.mk.injEq] at h
    obtain ⟨h1, h2⟩ := h
    have hpos : sh'.pos = s.pos + 8 := by rw [← h1]
    have hr : pyRead file2 s.pos 8 = pyRead file1 s.pos 8 :=
      pyRead_agree_checked hlen s.pos 8 ((pyRead file1 s.pos 8).length) rfl
        (fun i hi1 hi2 hi3 => hag i hi1 (by omega) hi3)
    simp only [key1Step, withAft, hr]
    rw [if_neg h8]
    rw [← h1, ← h2]

theorem key2Step_agree {file1 file2 : Bytes} {s sh' : Shared} {tl : StepTail} {L : Nat}
    (A : List Nat) (hlen : file2.length = file1.length)
    (h : key2Step file1 s L = .ok (sh', tl))
    (hag : ∀ i, s.pos ≤ i → i < sh'.pos → i < file1.length →
      file2.getD i 0 = file1.getD i 0) :
    key2Step file2 (withAft s A) L = .ok (withAft sh' A, tl) := by
  simp only [key2Step] at h
  split at h
  · cases h
  · rename_i nm hnm
    split at h
    · cases h
    · rename_i hz
      split at h
      · cases h
      · rename_i hlen2
        split at h
        · cases h
        · rename_i names hnames
          simp only [Except.ok.injEq, Prod.mk.injEq] at h
          obtain ⟨h1, h2⟩ := h
          have hpos : sh'.pos = s.pos + (pyRead file1 s.pos L).length := by rw [← h1]
          have hr : pyRead file2 s.pos L = pyRead file1 s.pos L :=
            pyRead_agree_checked hlen s.pos L ((pyRead file1 s.pos L).length) rfl
              (fun i hi1 hi2 hi3 => hag i hi1 (by omega) hi3)
          simp only [key2Step, withAft, hnm, hr]
          rw [if_neg hz, if_neg hlen2, hnames]
          rw [← h1, ← h2, hnm]

theorem key3Step_agree {file1 file2 : Bytes} {s sh' : Shared} {tl : StepTail} {L : Nat}
    (A : List Nat) (hlen : file2.length = file1.length)
    (h : key3Step file1 s L = .ok (sh', tl))
    (hag : ∀ i, s.pos ≤ i → i < sh'.pos → i < file1.length →
      file2.getD i 0 = file1.getD i 0) :
    key3Step file2 (withAft s A) L = .ok (withAft sh' A, tl) := by
  simp only [key3Step] at h
  split at h
  · cases h
  · rename_i nm hnm
    split at h
    · cases h
    · rename_i hlen3
      simp only [Except.ok.injEq, Prod.mk.injEq] at h
      obtain ⟨h1, h2⟩ := h
      have hpos : sh'.pos = s.pos + (pyRead file1 s.pos L).length := by rw [← h1]
      have hr : pyRead file2 s.pos L = pyRead file1 s.pos L :=
        pyRead_agree_checked hlen s.pos L ((pyRead file1 s.pos L).length) rfl
          (fun i hi1 hi2 hi3 => hag i hi1 (by omega) hi3)
      simp only [key3Step, withAft, hnm, hr]
      rw [if_neg hlen3]
      rw [← h1, ← h2, hnm]

theorem key4Step_agree {file1 file2 : Bytes} {s sh' : Shared} {tl : StepTail} {L : Nat}
    (A : List Nat) (hlen : file2.length = file1.length)
    (h : key4Step file1 s L = .ok (sh', tl))
    (hag : ∀ i, s.pos ≤ i → i < sh'.pos → i < file1.length →
      file2.getD i 0 = file1.getD i 0) :
    key4Step file2 (withAft s A) L = .ok (withAft sh' A, tl) := by
  simp only [key4Step] at h
  split at h
  · cases h
  · rename_i nm hnm
    split at h
    · cases h
    · rename_i hlen4
      split at h
      · cases h
      · rename_i udm hudm
        simp only [Except.ok.injEq, Prod.mk.injEq] at h
        obtain ⟨h1, h2⟩ := h
        have hpos : sh'.pos = s.pos + (pyRead file1 s.pos L).length := by rw [← h1]
        have hr : pyRead file2 s.pos L = pyRead file1 s.pos L :=
          pyRead_agree_checked hlen s.pos L ((pyRead file1 s.pos L).length) rfl
            (fun i hi1 hi2 hi3 => hag i hi1 (by omega) hi3)
        simp only [key4Step, withAft, hnm, hr]
        rw [if_neg hlen4, hudm]
        rw [← h1, ← h2, hnm]

theorem trStep_agree {s sh' : Shared} {tl : StepTail} {L : Nat} (A : List Nat)
    (h : trStep s L = .ok (sh', tl)) :
    trStep (withAft s A) L = .ok (withAft sh' A, tl) := by
  simp only [trStep, Except.ok.injEq, Prod.mk.injEq] at h
  obtain ⟨h1, h2⟩ := h
  simp only [trStep, withAft]
  rw [← h1, ← h2]

theorem otherStep_agree {s sh' : Shared} {tl : StepTail} (A : List Nat)
    (h : otherStep s = .ok (sh', tl)) :
    otherStep (withAft s A) = .ok (withAft sh' A, tl) := by
  simp only [otherStep, Except.ok.injEq, Prod.mk.injEq] at h
  obtain ⟨h1, h2⟩ := h
  simp only [otherStep, withAft]
  rw [← h1, ← h2]

theorem key5Step_agree {file1 file2 : Bytes} {s sh' : Shared} {tl : StepTail} {L : Nat}
    (A : List Nat) (hlen : file2.length = file1.length)
    (h : key5Step file1 s L = .ok (sh', tl))
    (hag : ∀ i, s.pos ≤ i → i < sh'.pos → i < file1.length →
      file2.getD i 0 = file1.getD i 0) :
    key5Step file2 (withAft s A) L = .ok (withAft sh' A, tl) := by
  simp only [key5Step] at h
  split at h
  · cases h
  · rename_i nm hnm
    split at h
    · cases h
    · rename_i hlen5
      split at h
      · cases h
      · rename_i varPos0 hvp
        split at h
        · cases h
        · rename_i varNam hvn
          split at h
          · cases h
          · rename_i itm hitm
            split at h
            · exfalso
              rename_i hbad
              exact hbad (mkItm_ok_length hitm)
            · rename_i hgood
              split at h
              · cases h
              · rename_i udmPart hudmp
                simp only [Except.ok.injEq, Prod.mk.injEq] at h
                obtain ⟨h1, h2⟩ := h
                have hpos : sh'.pos = s.pos + (pyRead file1 s.pos L).length := by
                  rw [← h1]
                have hr : pyRead file2 s.pos L = pyRead file1 s.pos L :=
                  pyRead_agree_checked hlen s.pos L ((pyRead file1 s.pos L).length) rfl
                    (fun i hi1 hi2 hi3 => hag i hi1 (by omega) hi3)
                simp only [key5Step, withAft, hnm, hr, hvp, hvn, hitm, hudmp,
                  if_neg hlen5, if_neg hgood]
                rw [← h1, ← h2, hnm, hvn]

theorem dispatch_agree {file1 file2 : Bytes} {s sh' : Shared} {tl : StepTail} {L : Nat}
    (A : List Nat) (hlen : file2.length = file1.length)
    (h : dispatch file1 s L = .ok (sh', tl))
    (hag : ∀ i, s.pos ≤ i → i < sh'.pos → i < file1.length →
      file2.getD i 0 = file1.getD i 0) :
    dispatch file2 (withAft s A) L = .ok (withAft sh' A, tl) := by
  unfold dispatch at h
  simp only [dispatch, withAft]
  split at h
  · rename_i hL
    rw [if_pos hL]
    exact tagStep_agree A hlen h hag
  · rename_i hL
    rw [if_neg hL]
    split at h
    · cases h
    · rename_i h1v hh1
      split at h
      · rename_i ht
        rw [if_pos ht]
        exact titlStep_agree A hlen h hag
      · rename_i ht
        rw [if_neg ht]
        split at h
        · rename_i hk
          rw [if_pos hk]
          exact key1Step_agree A hlen h hag
        · rename_i hk
          rw [if_neg hk]
          split at h
          · cases h
          · rename_i h2v hh2
            split at h
            · rename_i hk2
              rw [if_pos hk2]
              exact key2Step_agree A hlen h hag
            · rename_i hk2
              rw [if_neg hk2]
              split at h
              · cases h
              · rename_i h3v hh3
                split at h
                · rename_i hk3
                  rw [if_pos hk3]
                  exact key3Step_agree A hlen h hag
                · rename_i hk3
                  rw [if_neg hk3]
                  split at h
                  · cases h
                  · rename_i h4v hh4
                    split at h
                    · rename_i hk4
                      rw [if_pos hk4]
                      exact key4Step_agree A hlen h hag
                    · rename_i hk4
                      rw [if_neg hk4]
                      split at h
                      · cases h
                      · rename_i h5v hh5
                        split at h
                        · rename_i hk5
                          rw [if_pos hk5]
                          exact key5Step_agree A hlen h hag
                        · rename_i hk5
                          rw [if_neg hk5]
                          split at h
                          · rename_i htr
                            rw [if_pos htr]
                            exact trStep_agree A h
                          · rename_i htr
                            rw [if_neg htr]
                            exact otherStep_agree A h

theorem stepCore_agree {file1 file2 : Bytes} {s0 sh' : Shared} {tl : StepTail}
    (A : List Nat) (hlen : file2.length = file1.length)
    (h : stepCore file1 s0 = .ok (sh', tl))
    (hag : ∀ i, s0.pos ≤ i → i < sh'.pos → i < file1.length →
      file2.getD i 0 = file1.getD i 0) :
    stepCore file2 (withAft s0 A) = .ok (withAft sh' A, tl) := by
  simp only [stepCore] at h
  split at h
  · cases h
  · rename_i h4
    have hposle : s0.pos + 4 ≤ sh'.pos := by
      have hp := (dispatch_facts h).posle
      simp at hp
      omega
    have hr : pyRead file2 s0.pos 4 = pyRead file1 s0.pos 4 :=
      pyRead_agree_checked hlen s0.pos 4 4 (by omega)
        (fun i hi1 hi2 hi3 => hag i hi1 (by omega) hi3)
    simp only [stepCore, withAft, hr]
    rw [if_neg h4]
    exact dispatch_agree A hlen h (fun i hi1 hi2 hi3 => by
      have hi1' : s0.pos + 4 ≤ i := hi1
      exact hag i (by omega) hi2 hi3)

theorem stepBody_agree {m : ScanMode} {file1 file2 : Bytes} {st st' : ScanState}
    {brk : Bool} (A : List Nat) (hlen : file2.length = file1.length)
    (h : stepBody m file1 st = .ok (st', brk))
    (hag : ∀ i, st.sh.pos ≤ i → i + 4 < st'.sh.pos → i < file1.length →
      file2.getD i 0 = file1.getD i 0) :
    ∃ A', stepBody m file2 ⟨withAft st.sh A, st.vf⟩
        = .ok (⟨withAft st'.sh A', st'.vf⟩, brk) := by
  obtain ⟨hbrk, sh1, tl, hcore, htr4, hsh', htail⟩ := stepBody_inv h
  subst hbrk
  have hp : st'.sh.pos = sh1.pos + 4 := by rw [hsh']
  have hcore2 := stepCore_agree A hlen hcore
    (fun i hi1 hi2 hi3 => hag i hi1 (by omega) hi3)
  have hlen4 : (pyRead file2 sh1.pos 4).length = 4 := by
    rw [pyRead_length_eq hlen]; exact htr4
  refine ⟨A ++ [le32 (pyRead file2 sh1.pos 4)], ?_⟩
  simp only [stepBody]
  rw [hcore2]
  rcases htail with ⟨htl, hvf⟩ | ⟨k, htl, hvt⟩
  · subst htl
    simp only [finTrailer, withAft]
    rw [if_neg (by omega)]
    rw [hsh', hvf]
  · subst htl
    simp only
    rw [hvt]
    simp only [finTrailer, withAft]
    rw [if_neg (by omega)]
    rw [hsh']

/-- The whole scan is insensitive to the bytes inside trailer windows: a
same-length file agreeing everywhere outside the final trailer windows runs
in lockstep, reaching the same state except for the unused `BlkLenAft`. -/
theorem scanLoop_agree {m : ScanMode} {file1 file2 : Bytes} :
    ∀ (fuel : Nat) (s r1 : ScanState) (A : List Nat),
      scanLoop m file1 fuel s = .ok r1 →
      file2.length = file1.length →
      (∀ t ∈ s.sh.trailerAt, t + 4 ≤ s.sh.pos) →
      (∀ i, i < file1.length →
        (∀ t ∈ r1.sh.trailerAt, ¬(t ≤ i ∧ i < t + 4)) →
        file2.getD i 0 = file1.getD i 0) →
      ∃ A', scanLoop m file2 fuel ⟨withAft s.sh A, s.vf⟩
          = .ok ⟨withAft r1.sh A', r1.vf⟩ := by
  intro fuel
  induction fuel with
  | zero => intro s r1 A h; cases h
  | succ fuel ih =>
      intro s r1 A h hlen hinv hag
      rw [scanLoop] at h
      split at h
      · rename_i hz1
        cases h
        refine ⟨A, ?_⟩
        rw [scanLoop]
        have hz2 : (pyRead file2 s.sh.pos 4).length = 0 := by
          rw [pyRead_length_eq hlen]; exact hz1
        rw [if_pos (show (pyRead file2
          ({ sh := withAft s.sh A, vf := s.vf } : ScanState).sh.pos 4).length = 0
          from hz2)]
      · rename_i hne
        cases hstp : stepBody m file1 s with
        | error e => rw [hstp] at h; cases h
        | ok pr =>
          obtain ⟨s', brk⟩ := pr
          rw [hstp] at h
          obtain ⟨hbrk, sh1, tl, hcore, htr4, hsh', _⟩ := stepBody_inv hstp
          subst hbrk
          replace h : scanLoop m file1 fuel s' = .ok r1 := h
          have hposc := (stepCore_facts hcore).2
          have hp' : s'.sh.pos = sh1.pos + 4 := by rw [hsh']
          have hta : s'.sh.trailerAt = s.sh.trailerAt ++ [sh1.pos] := by
            rw [hsh']
            show sh1.trailerAt ++ [sh1.pos] = _
            rw [(stepCore_facts hcore).1.trailer]
          obtain ⟨_, ⟨ts, hts, htsge⟩, _, _, _⟩ :=
            scanLoop_facts m file1 fuel s' r1 h
          have hag_step : ∀ i, s.sh.pos ≤ i → i + 4 < s'.sh.pos →
              i < file1.length → file2.getD i 0 = file1.getD i 0 := by
            intro i hi1 hi2 hi3
            apply hag i hi3
            intro t ht
            rw [hts, hta] at ht
            rcases List.mem_append.mp ht with ht | ht
            · rcases List.mem_append.mp ht with ht | ht
              · have := hinv t ht
                omega
              · simp only [List.mem_singleton] at ht
                subst ht
                omega
            · have := (htsge t ht).1
              omega
          obtain ⟨A1, hstp2⟩ := stepBody_agree A hlen hstp hag_step
          have hinv' : ∀ t ∈ s'.sh.trailerAt, t + 4 ≤ s'.sh.pos := by
            rw [hta]
            intro t ht
            rcases List.mem_append.mp ht with ht | ht
            · have := hinv t ht
              omega
            · simp only [List.mem_singleton] at ht
              subst ht
              omega
          obtain ⟨A', hrec⟩ := ih s' r1 A1 h hlen hinv' hag
          refine ⟨A', ?_⟩
          rw [scanLoop]
          have hne2 : ¬ (pyRead file2 s.sh.pos 4).length = 0 := by
            rw [pyRead_length_eq hlen]; exact hne
          rw [if_neg (show ¬ (pyRead file2
            ({ sh := withAft s.sh A, vf := s.vf } : ScanState).sh.pos 4).length = 0
            from hne2)]
          rw [hstp2]
          exact hrec

/-- C9 (amended): the scanner indeed never validates length trailers — for
same-length files agreeing on every byte outside the trailer windows of a
successful scan, opening yields an identical title, variable list, and
data-block index (only the stored, never-used trailer values differ).  The
extracted data, however, is NOT always identical: the data pass can reread
trailer bytes (see the counterexample), so only the open phase is
trailer-insensitive. -/
theorem C9_open_ignores_trailer_bytes :
    ∀ (file1 file2 : Bytes) (r1 : ScanState),
      inspectRun file1 = .ok r1 →
      AgreeOutside file1 file2 r1.sh.trailerAt →
      inspectPTF file2 = inspectPTF file1 ∧
      ∃ r2, inspectRun file2 = .ok r2 ∧
        r2.sh.available_vars = r1.sh.available_vars ∧
        r2.sh.probemTitle = r1.sh.probemTitle ∧
        r2.sh.DataPos = r1.sh.DataPos ∧
        r2.vf = r1.vf := by
  intro file1 file2 r1 hrun hagree
  obtain ⟨hlen, hag⟩ := hagree
  have hinit : ∀ t ∈ (initState : ScanState).sh.trailerAt,
      t + 4 ≤ initState.sh.pos := by
    intro t ht
    exact absurd ht (List.not_mem_nil t)
  obtain ⟨A', hrun2⟩ := scanLoop_agree (fuelFor file1) initState r1 [] hrun hlen hinit hag
  have hfuel : fuelFor file2 = fuelFor file1 := by unfold fuelFor; rw [hlen]
  have hrun2' : inspectRun file2 = .ok ⟨withAft r1.sh A', r1.vf⟩ := by
    unfold inspectRun
    rw [hfuel]
    exact hrun2
  constructor
  · unfold inspectPTF
    rw [hrun2', hrun]
    rfl
  · exact ⟨⟨withAft r1.sh A', r1.vf⟩, hrun2', rfl, rfl, rfl, rfl⟩

set_option maxRecDepth 1000000 in
/-- Witness for C9 at the concrete trailer-variant pair: `trailFileB`
differs from `trailFileA` only inside the last trailer window, and opening
gives identical results. -/
theorem C9_open_ignores_trailer_bytes_witness :
    ∃ r1, inspectRun trailFileA = .ok r1 ∧
      AgreeOutside trailFileA trailFileB r1.sh.trailerAt ∧
      inspectPTF trailFileB = inspectPTF trailFileA := by
  refine ⟨_, rfl, ⟨by decide, by decide⟩, ?_⟩
  exact (C9_open_ignores_trailer_bytes trailFileA trailFileB _ rfl
    ⟨by decide, by decide⟩).1
